import Mathlib

/-!
# Kaimon gateway: route compiler, middleware manager, route loader, proxy handler

A shallow embedding of `pkg/routes` and `pkg/middleware`.

Conventions of the embedding
* A Go `map[string]V` is an association list `GoMap V`.  `get` reads the first
  entry under a key, `set` overwrites that entry or appends a new one.  A
  `range` loop over a map visits the list front to back: the order in which the
  Go runtime visits a map is unspecified, so a statement for every list is a
  statement for every visiting order.
* A nil-able pointer or map is an `Option`.  A slice is a `List` (the code
  only ever asks a slice for its length and its elements, so nil and empty
  slices are the same list).
* File system and network are explicit inputs (`FileSystem`, `Net`); calls that
  change the outside world are logged in call order.
* Functions of the Go standard library that the code calls on strings
  (`strings.ToUpper`, `textproto.CanonicalMIMEHeaderKey`, `url.Parse`) are
  parameters.  `http.NewRequest` is the definition `NewRequest`, which follows
  net/http: an empty method stands for `GET`, the method is validated, the URL
  string is parsed and an empty port is removed from the host.
-/

namespace Kaimon

/-! ## Go maps -/

/-- A Go `map[string]V`. -/
abbrev GoMap (V : Type) := List (String × V)

namespace GoMap

/-- The read `v, exists := m[k]`. -/
def get {V : Type} : GoMap V → String → Option V
  | [], _ => none
  | (k', v) :: rest, k => if k' = k then some v else get rest k

/-- The assignment `m[k] = v`. -/
def set {V : Type} : GoMap V → String → V → GoMap V
  | [], k, v => [(k, v)]
  | (k', v') :: rest, k, v =>
    if k' = k then (k, v) :: rest else (k', v') :: set rest k v

end GoMap

/-! ## pkg/routes/types.go -/

/-- Middleware configuration with phases. -/
structure MiddlewareConfig where
  OnRequest : List String
  OnResponse : List String
deriving DecidableEq, Repr

/-- A single route configuration. -/
structure Route where
  Path : String
  Method : String
  Target : String
  Middlewares : Option MiddlewareConfig
  Headers : Option (GoMap String)
deriving DecidableEq, Repr

/-- The configuration for a domain. -/
structure RouteConfig where
  Domain : String
  BasePath : String
  Routes : List Route
  Middlewares : Option MiddlewareConfig
  Headers : Option (GoMap String)
deriving DecidableEq, Repr

/-- Global configuration for all routes. -/
structure GlobalConfig where
  Middlewares : Option MiddlewareConfig
  Headers : Option (GoMap String)
deriving DecidableEq, Repr

/-- The compiled route configuration. -/
structure CompiledRoutes where
  Middlewares : Option MiddlewareConfig
  Routes : List Route
deriving DecidableEq, Repr

/-! ## pkg/routes/compiler.go -/

/-- What `os.ReadFile` followed by `json.Unmarshal` yields for one path. -/
inductive FileData (α : Type) where
  | notExist
  | unreadable
  | malformed
  | parsed (a : α)
deriving DecidableEq, Repr

/-- One entry of `os.ReadDir`, with what reading and parsing it would yield. -/
structure DirEntry where
  Name : String
  IsDir : Bool
  data : FileData RouteConfig
deriving DecidableEq, Repr

/-- The outside world as `Compile` sees it. -/
structure FileSystem where
  /-- reading and parsing the compiler's `globalFile` -/
  globalFile : FileData GlobalConfig
  /-- the result of `os.ReadDir(configDir)`; `none` is an error -/
  readDir : Option (List DirEntry)
  /-- whether `os.MkdirAll(outputDir)` succeeds -/
  mkdirAllOk : Bool
  /-- whether `os.WriteFile(outputPath)` succeeds -/
  writeFileOk : Bool
deriving DecidableEq, Repr

/-- The calls of `Compile` that change the file system.  `writeFile dir name c`
is `os.WriteFile(filepath.Join(dir, name), json.MarshalIndent(c))`. -/
inductive FsOp where
  | mkdirAll (dir : String)
  | writeFile (dir : String) (name : String) (data : CompiledRoutes)
deriving DecidableEq, Repr

/-- The error returns of `Compile`, one per `fmt.Errorf`. -/
inductive CompileError where
  | loadGlobalConfig
  | readConfigDir
  | readFile (name : String)
  | parseFile (name : String)
  | createOutputDir
  | writeCompiled
deriving DecidableEq, Repr

/-- Compiler compiles route configurations from multiple files. -/
structure Compiler where
  configDir : String
  outputDir : String
  globalFile : String
deriving DecidableEq, Repr

/-- The test `strings.HasSuffix(s, suffix)`. -/
def hasSuffix (s suffix : String) : Bool :=
  suffix.data.isSuffixOf s.data

/-- The header loop of `Compile`:
`for k, v := range config.Headers { if _, exists := h[k]; !exists { h[k] = v } }`. -/
def mergeHeaders (h : GoMap String) (configHeaders : GoMap String) : GoMap String :=
  configHeaders.foldl
    (fun h kv =>
      match h.get kv.1 with
      | some _ => h
      | none => h.set kv.1 kv.2)
    h

/-- The body of the route loop of `Compile`: from `compiledRoute := route` up to
the `append`. -/
def compileRoute (config : RouteConfig) (route : Route) : Route :=
  let compiledRoute := route
  let compiledRoute :=
    if config.BasePath ≠ "" then
      { compiledRoute with Path := config.BasePath ++ route.Path }
    else compiledRoute
  let compiledRoute :=
    if compiledRoute.Middlewares.isNone ∧ config.Middlewares.isSome then
      { compiledRoute with Middlewares := config.Middlewares }
    else compiledRoute
  let headers : GoMap String :=
    match compiledRoute.Headers with
    | none => []
    | some h => h
  let headers :=
    match config.Headers with
    | none => headers
    | some configHeaders => mergeHeaders headers configHeaders
  { compiledRoute with Headers := some headers }

/-- The route loop of `Compile` for one parsed domain file. -/
def compileConfig (config : RouteConfig) (compiled : CompiledRoutes) : CompiledRoutes :=
  config.Routes.foldl
    (fun compiled route =>
      { compiled with Routes := compiled.Routes ++ [compileRoute config route] })
    compiled

/-- The file loop of `Compile`. -/
def compileFiles : List DirEntry → CompiledRoutes → Except CompileError CompiledRoutes
  | [], compiled => .ok compiled
  | file :: files, compiled =>
    if file.IsDir || !hasSuffix file.Name ".json" then
      compileFiles files compiled
    else
      match file.data with
      | .notExist => .error (.readFile file.Name)
      | .unreadable => .error (.readFile file.Name)
      | .malformed => .error (.parseFile file.Name)
      | .parsed config => compileFiles files (compileConfig config compiled)

/-- The method `loadGlobalConfig`: a file that does not exist is fine, any other
read error or a parse error is returned. -/
def Compiler.loadGlobalConfig ( _c : Compiler) (fs : FileSystem)
    (compiled : CompiledRoutes) : Except Unit CompiledRoutes :=
  match fs.globalFile with
  | .notExist => .ok compiled
  | .unreadable => .error ()
  | .malformed => .error ()
  | .parsed global =>
    match global.Middlewares with
    | some mws => .ok { compiled with Middlewares := some mws }
    | none => .ok compiled

/-- The method `Compile`: the returned error (if any) and the file-system
changing calls it made, in order.  `json.MarshalIndent` cannot fail on a
`CompiledRoutes` (strings, slices and string maps only), so that error return
is not reachable and has no branch here. -/
def Compiler.Compile (c : Compiler) (fs : FileSystem) :
    Except CompileError Unit × List FsOp :=
  let compiled : CompiledRoutes :=
    { Middlewares := some { OnRequest := [], OnResponse := [] }, Routes := [] }
  let loaded : Except Unit CompiledRoutes :=
    if c.globalFile ≠ "" then c.loadGlobalConfig fs compiled else .ok compiled
  match loaded with
  | .error _ => (.error .loadGlobalConfig, [])
  | .ok compiled =>
    match fs.readDir with
    | none => (.error .readConfigDir, [])
    | some files =>
      match compileFiles files compiled with
      | .error e => (.error e, [])
      | .ok compiled =>
        if !fs.mkdirAllOk then
          (.error .createOutputDir, [.mkdirAll c.outputDir])
        else if !fs.writeFileOk then
          (.error .writeCompiled,
            [.mkdirAll c.outputDir, .writeFile c.outputDir "routes.json" compiled])
        else
          (.ok (), [.mkdirAll c.outputDir, .writeFile c.outputDir "routes.json" compiled])

/-! ## pkg/middleware -/

/-- An `OnRequestMiddleware` or `OnResponseMiddleware` value: its `Name()` and
its `Handle` method, over handlers of type `H`. -/
structure Middleware (H : Type) where
  Name : String
  Handle : H → H

/-- Middleware execution order configuration. -/
structure ExecutionOrder where
  OnRequest : List String
  OnResponse : List String
deriving DecidableEq, Repr

/-- Manager manages middleware registration and execution. -/
structure Manager (H : Type) where
  onRequestMiddlewares : GoMap (Middleware H)
  onResponseMiddlewares : GoMap (Middleware H)
  executionOrder : ExecutionOrder

/-- The package variable `globalRegistry`: constructors by name, per phase. -/
structure Registry (H : Type) where
  onRequest : GoMap (Unit → Middleware H)
  onResponse : GoMap (Unit → Middleware H)

/-- The function `NewManager`. -/
def NewManager (H : Type) : Manager H :=
  { onRequestMiddlewares := [], onResponseMiddlewares := [],
    executionOrder := { OnRequest := [], OnResponse := [] } }

/-- The function `RegisterOnRequestFactory`. -/
def RegisterOnRequestFactory {H : Type} (globalRegistry : Registry H) (name : String)
    (factory : Unit → Middleware H) : Registry H :=
  { globalRegistry with onRequest := globalRegistry.onRequest.set name factory }

/-- The function `RegisterOnResponseFactory`. -/
def RegisterOnResponseFactory {H : Type} (globalRegistry : Registry H) (name : String)
    (factory : Unit → Middleware H) : Registry H :=
  { globalRegistry with onResponse := globalRegistry.onResponse.set name factory }

namespace Manager

variable {H : Type}

/-- The method `RegisterOnRequest`. -/
def RegisterOnRequest (m : Manager H) (middleware : Middleware H) : Manager H :=
  { m with onRequestMiddlewares := m.onRequestMiddlewares.set middleware.Name middleware }

/-- The method `RegisterOnResponse`. -/
def RegisterOnResponse (m : Manager H) (middleware : Middleware H) : Manager H :=
  { m with onResponseMiddlewares := m.onResponseMiddlewares.set middleware.Name middleware }

/-- The method `LoadFromRegistry`. -/
def LoadFromRegistry (m : Manager H) (globalRegistry : Registry H) : Manager H :=
  let m := globalRegistry.onRequest.foldl (fun m kv => m.RegisterOnRequest (kv.2 ())) m
  globalRegistry.onResponse.foldl (fun m kv => m.RegisterOnResponse (kv.2 ())) m

/-- The method `GetMiddlewares`. -/
def GetMiddlewares (m : Manager H) (names : List String) : List (H → H) :=
  names.foldl
    (fun middlewares name =>
      match m.onRequestMiddlewares.get name with
      | some mw => middlewares ++ [mw.Handle]
      | none =>
        match m.onResponseMiddlewares.get name with
        | some mw => middlewares ++ [mw.Handle]
        | none => middlewares)
    []

/-- The method `GetGlobalMiddlewares`. -/
def GetGlobalMiddlewares (m : Manager H) : List (H → H) :=
  let middlewares : List (H → H) :=
    m.executionOrder.OnRequest.foldl
      (fun middlewares name =>
        match m.onRequestMiddlewares.get name with
        | some mw => middlewares ++ [mw.Handle]
        | none => middlewares)
      []
  m.executionOrder.OnResponse.foldl
    (fun middlewares name =>
      match m.onResponseMiddlewares.get name with
      | some mw => middlewares ++ [mw.Handle]
      | none => middlewares)
    middlewares

end Manager

/-! ## pkg/framework/framework.go -/

/-- One call of `GET`, `POST`, `PUT`, `DELETE` or `PATCH` on a router. -/
structure Registration (H : Type) where
  method : String
  path : String
  handler : H

/-- What a `framework.Router` has been told so far: the middlewares given to
`Use` and the routes given to the five method calls, both in call order. -/
structure Router (H : Type) where
  middlewares : List (H → H)
  routes : List (Registration H)

namespace Router

variable {H : Type}

/-- The method `Use`. -/
def Use (r : Router H) (middleware : List (H → H)) : Router H :=
  { r with middlewares := r.middlewares ++ middleware }

/-- The method `GET`. -/
def GET (r : Router H) (path : String) (handler : H) : Router H :=
  { r with routes := r.routes ++ [⟨"GET", path, handler⟩] }

/-- The method `POST`. -/
def POST (r : Router H) (path : String) (handler : H) : Router H :=
  { r with routes := r.routes ++ [⟨"POST", path, handler⟩] }

/-- The method `PUT`. -/
def PUT (r : Router H) (path : String) (handler : H) : Router H :=
  { r with routes := r.routes ++ [⟨"PUT", path, handler⟩] }

/-- The method `DELETE`. -/
def DELETE (r : Router H) (path : String) (handler : H) : Router H :=
  { r with routes := r.routes ++ [⟨"DELETE", path, handler⟩] }

/-- The method `PATCH`. -/
def PATCH (r : Router H) (path : String) (handler : H) : Router H :=
  { r with routes := r.routes ++ [⟨"PATCH", path, handler⟩] }

end Router

/-! ## pkg/routes/loader.go: Load -/

/-- The error return of `Load`. -/
inductive LoadError where
  | unsupportedMethod (method : String)
deriving DecidableEq, Repr

/-- Loader loads and registers routes. -/
structure Loader (H : Type) where
  router : Router H
  middlewareManager : Manager H

/-- The loop `for i := len(mws) - 1; i >= 0; i-- { handler = mws[i](handler) }`,
with `n = i + 1` counting down. -/
def applyReverse {H : Type} (routeMiddlewares : List (H → H)) : Nat → H → H
  | 0, handler => handler
  | i + 1, handler =>
    applyReverse routeMiddlewares i
      (match routeMiddlewares[i]? with
       | some mw => mw handler
       | none => handler)

/-- The block of `Load` under "Wrap with route-specific middlewares". -/
def wrapRoute {H : Type} (middlewareManager : Manager H) (route : Route) (handler : H) : H :=
  match route.Middlewares with
  | none => handler
  | some mws =>
    let routeMiddlewares : List (H → H) := []
    let routeMiddlewares :=
      if mws.OnRequest.length > 0 then
        routeMiddlewares ++ middlewareManager.GetMiddlewares mws.OnRequest
      else routeMiddlewares
    let routeMiddlewares :=
      if mws.OnResponse.length > 0 then
        routeMiddlewares ++ middlewareManager.GetMiddlewares mws.OnResponse
      else routeMiddlewares
    applyReverse routeMiddlewares routeMiddlewares.length handler

/-- The route loop of `Load`.  `toUpper` is `strings.ToUpper` and
`createProxyHandler` the method of that name. -/
def registerRoutes {H : Type} (toUpper : String → String) (createProxyHandler : Route → H)
    (middlewareManager : Manager H) :
    List Route → Router H → Except LoadError Unit × Router H
  | [], router => (.ok (), router)
  | route :: routes, router =>
    let handler := createProxyHandler route
    let handler := wrapRoute middlewareManager route handler
    let method := toUpper route.Method
    if method = "GET" then
      registerRoutes toUpper createProxyHandler middlewareManager routes
        (router.GET route.Path handler)
    else if method = "POST" then
      registerRoutes toUpper createProxyHandler middlewareManager routes
        (router.POST route.Path handler)
    else if method = "PUT" then
      registerRoutes toUpper createProxyHandler middlewareManager routes
        (router.PUT route.Path handler)
    else if method = "DELETE" then
      registerRoutes toUpper createProxyHandler middlewareManager routes
        (router.DELETE route.Path handler)
    else if method = "PATCH" then
      registerRoutes toUpper createProxyHandler middlewareManager routes
        (router.PATCH route.Path handler)
    else
      (.error (.unsupportedMethod route.Method), router)

/-- The block of `Load` under "Apply global middlewares". -/
def applyGlobal {H : Type} (l : Loader H) (compiled : CompiledRoutes) : Router H :=
  match compiled.Middlewares with
  | none => l.router
  | some mws =>
    let globalMiddlewares : List (H → H) := []
    let globalMiddlewares :=
      if mws.OnRequest.length > 0 then
        globalMiddlewares ++ l.middlewareManager.GetMiddlewares mws.OnRequest
      else globalMiddlewares
    let globalMiddlewares :=
      if mws.OnResponse.length > 0 then
        globalMiddlewares ++ l.middlewareManager.GetMiddlewares mws.OnResponse
      else globalMiddlewares
    if globalMiddlewares.length > 0 then l.router.Use globalMiddlewares else l.router

/-- The method `Load`: the returned error (if any) and the router afterwards. -/
def Loader.Load {H : Type} (l : Loader H) (toUpper : String → String)
    (createProxyHandler : Route → H) (compiled : CompiledRoutes) :
    Except LoadError Unit × Router H :=
  registerRoutes toUpper createProxyHandler l.middlewareManager compiled.Routes
    (applyGlobal l compiled)

/-! ## pkg/routes/loader.go: createProxyHandler -/

/-- A `http.Header`. -/
abbrev Header := GoMap (List String)

namespace Header

/-- The method `Header.Add`, with `canonicalKey` for
`textproto.CanonicalMIMEHeaderKey`. -/
def Add (canonicalKey : String → String) (h : Header) (key value : String) : Header :=
  let key := canonicalKey key
  h.set key ((h.get key).getD [] ++ [value])

/-- The method `Header.Set`. -/
def Set (canonicalKey : String → String) (h : Header) (key value : String) : Header :=
  h.set (canonicalKey key) [value]

/-- The method `Header.Values`. -/
def Values (h : Header) (key : String) : List String :=
  (h.get key).getD []

end Header

/-- The fields of a `url.URL` the handler reads or `http.NewRequest` fills. -/
structure URL where
  Scheme : String
  Host : String
  Path : String
  RawQuery : String
deriving DecidableEq, Repr

/-- The fields of the inbound `http.Request` the handler reads. -/
structure Request where
  Method : String
  URL : URL
  Header : Header
  Body : List Nat
deriving DecidableEq, Repr

/-- The outbound `http.Request` as `http.NewRequest` builds it and the handler
fills it in: method, parsed URL, body and header map. -/
structure ProxyRequest where
  Method : String
  URL : URL
  Body : List Nat
  Header : Header
deriving DecidableEq, Repr

/-- The fields of the backend `http.Response` the handler reads; `Body` is
what `io.ReadAll(resp.Body)` yields, `none` for an error. -/
structure Response where
  StatusCode : Int
  Header : Header
  Body : Option (List Nat)
deriving DecidableEq, Repr

/-- The network and the `net/http`, `net/url` functions the handler calls. -/
structure Net where
  /-- the function `textproto.CanonicalMIMEHeaderKey` -/
  canonicalKey : String → String
  /-- the function `url.Parse`; `none` is an error -/
  urlParse : String → Option URL
  /-- the test `validMethod` of net/http: the method is a non-empty token -/
  validMethod : String → Bool
  /-- the function `removeEmptyPort` of net/http: drops a trailing colon from a host -/
  removeEmptyPort : String → String
  /-- the call `client.Do`; `none` is an error -/
  clientDo : ProxyRequest → Option Response

/-- A call that writes the response: `ctx.JSON`, `ctx.Response().WriteHeader`
or `ctx.Response().Write`. -/
inductive Call where
  | JSON (code : Int) (data : GoMap String)
  | WriteHeader (code : Int)
  | Write (body : List Nat)
deriving DecidableEq, Repr

/-- A `framework.Context` as the handler uses it: the inbound request, the
response header map, the response-writing calls so far and the requests handed
to `client.Do` so far. -/
structure Context where
  Request : Request
  responseHeader : Header
  calls : List Call
  sent : List ProxyRequest
deriving DecidableEq, Repr

/-- The constant `http.StatusInternalServerError`. -/
def StatusInternalServerError : Int := 500

/-- The constant `http.StatusBadGateway`. -/
def StatusBadGateway : Int := 502

/-- The method `ctx.JSON`. -/
def Context.JSON (ctx : Context) (code : Int) (data : GoMap String) : Context :=
  { ctx with calls := ctx.calls ++ [.JSON code data] }

/-- The loop `for key, values := range src { for _, value := range values {
dst.Add(key, value) } }`. -/
def copyHeader (canonicalKey : String → String) (src : Header) (dst : Header) : Header :=
  src.foldl
    (fun dst kv => kv.2.foldl (fun dst value => dst.Add canonicalKey kv.1 value) dst)
    dst

/-- The loop `for key, value := range route.Headers { h.Set(key, value) }`. -/
def setHeaders (canonicalKey : String → String) (headers : GoMap String) (h : Header) : Header :=
  headers.foldl (fun h kv => h.Set canonicalKey kv.1 kv.2) h

/-- The function `http.NewRequest` of net/http, as far as the handler depends on
it.  An empty method is replaced by `GET`; a method that is not valid is an
error; the URL string goes through `url.Parse`, whose error is returned; an
empty port is removed from the host; the request starts with an empty header
map. -/
def NewRequest (net : Net) (method url : String) (body : List Nat) : Option ProxyRequest :=
  let method := if method = "" then "GET" else method
  if !net.validMethod method then none
  else
    match net.urlParse url with
    | none => none
    | some u =>
      let u := { u with Host := net.removeEmptyPort u.Host }
      some { Method := method, URL := u, Body := body, Header := [] }

/-- The two header loops of the handler on the request `http.NewRequest` built:
"Copy headers", then "Add custom headers from route config". -/
def fillHeaders (canonicalKey : String → String) (route : Route) (req : Request)
    (proxyReq : ProxyRequest) : ProxyRequest :=
  let proxyReq :=
    { proxyReq with Header := copyHeader canonicalKey req.Header proxyReq.Header }
  match route.Headers with
  | none => proxyReq
  | some headers =>
    { proxyReq with Header := setHeaders canonicalKey headers proxyReq.Header }

/-- The header map the two header loops of the handler leave on a request that
starts with an empty header map: the inbound header copied, then the route
headers set. -/
def proxyHeader (canonicalKey : String → String) (route : Route) (req : Request) : Header :=
  let h : Header := []
  let h := copyHeader canonicalKey req.Header h
  match route.Headers with
  | none => h
  | some headers => setHeaders canonicalKey headers h

/-- The string `proxyURL` of the handler. -/
def proxyURL (targetURL : URL) (req : Request) : String :=
  let proxyURL := targetURL.Scheme ++ "://" ++ targetURL.Host ++ targetURL.Path
  if req.URL.RawQuery ≠ "" then proxyURL ++ ("?" ++ req.URL.RawQuery) else proxyURL

/-- The method `createProxyHandler`: the handler as a function from the context
before the call to the context after it.  (The Go handler also returns an
error value: nil on the last path, the result of `ctx.JSON` on the others.) -/
def createProxyHandler (net : Net) (route : Route) : Context → Context := fun ctx =>
  match net.urlParse route.Target with
  | none => ctx.JSON StatusInternalServerError [("error", "invalid target URL")]
  | some targetURL =>
    let req := ctx.Request
    let proxyURL := proxyURL targetURL req
    match NewRequest net req.Method proxyURL req.Body with
    | none =>
      ctx.JSON StatusInternalServerError [("error", "failed to create proxy request")]
    | some proxyReq =>
      let proxyReq := fillHeaders net.canonicalKey route req proxyReq
      let ctx := { ctx with sent := ctx.sent ++ [proxyReq] }
      match net.clientDo proxyReq with
      | none => ctx.JSON StatusBadGateway [("error", "failed to proxy request")]
      | some resp =>
        let ctx :=
          { ctx with
            responseHeader := copyHeader net.canonicalKey resp.Header ctx.responseHeader }
        match resp.Body with
        | none => ctx.JSON StatusInternalServerError [("error", "failed to read response")]
        | some body =>
          { ctx with calls := ctx.calls ++ [.WriteHeader resp.StatusCode, .Write body] }


/-! ## Reading a directory listing -/

/-- The entries the file loop of `Compile` does not skip. -/
def accepted (file : DirEntry) : Bool :=
  !file.IsDir && hasSuffix file.Name ".json"

/-- The domain configs of the accepted entries that parse, in listing order. -/
def domainConfigs (files : List DirEntry) : List RouteConfig :=
  files.filterMap fun file =>
    if accepted file then
      match file.data with
      | .parsed config => some config
      | _ => none
    else none

/-! ## Words of the specification -/

/-- A name is registered when it has an instance in either phase. -/
def Manager.registered {H : Type} (m : Manager H) (name : String) : Bool :=
  (m.onRequestMiddlewares.get name).isSome || (m.onResponseMiddlewares.get name).isSome

/-- The wrapping functions a route's selector resolves to: `GetMiddlewares` on
`onRequest`, then on `onResponse`; none for a route without a selector. -/
def routeChain {H : Type} (m : Manager H) (route : Route) : List (H → H) :=
  match route.Middlewares with
  | none => []
  | some mws => m.GetMiddlewares mws.OnRequest ++ m.GetMiddlewares mws.OnResponse

/-- A method `Load` has a case for, compared after upper-casing. -/
def supported (toUpper : String → String) (route : Route) : Bool :=
  decide (toUpper route.Method ∈ ["GET", "POST", "PUT", "DELETE", "PATCH"])

/-- All values a header map holds under keys that canonicalise to `n`, in the
order the map is visited. -/
def valuesUnder (canonicalKey : String → String) (h : Header) (n : String) : List String :=
  (h.filter fun kv => canonicalKey kv.1 = n).flatMap fun kv => kv.2

/-- The value of the last visited route header whose key canonicalises to `n`. -/
def staticValue (canonicalKey : String → String) (headers : GoMap String) (n : String) :
    Option String :=
  (headers.reverse.find? fun kv => canonicalKey kv.1 = n).map fun kv => kv.2

/-- The request the handler hands to `client.Do`: the request `http.NewRequest`
built, with the merged header map. -/
def outbound (net : Net) (route : Route) (ctx : Context) (built : ProxyRequest) :
    ProxyRequest :=
  { built with Header := proxyHeader net.canonicalKey route ctx.Request }

/-- The method of the request `http.NewRequest` builds for an inbound method. -/
def outboundMethod (method : String) : String :=
  if method = "" then "GET" else method

/-- The selector with both name lists empty. -/
def emptySelector : MiddlewareConfig :=
  { OnRequest := [], OnResponse := [] }

/-- The global chain in the words of the specification: the pre-request names
resolved as `GetMiddlewares` resolves them, then the post-response names
resolved the same way. -/
def Manager.globalChainSpec {H : Type} (m : Manager H) : List (H → H) :=
  m.GetMiddlewares m.executionOrder.OnRequest ++ m.GetMiddlewares m.executionOrder.OnResponse

/-- Every constructor of a phase returns an instance that reports the name the
constructor is registered under. -/
def namesAgree {H : Type} (factories : GoMap (Unit → Middleware H)) : Prop :=
  ∀ kv ∈ factories, (kv.2 ()).Name = kv.1

/-- The manifest selector in the words of the specification: the global
config's selector when a global file is configured, parses and defines one, the
empty selector otherwise. -/
def globalSelector (c : Compiler) (fs : FileSystem) : MiddlewareConfig :=
  if c.globalFile = "" then emptySelector
  else
    match fs.globalFile with
    | .parsed global =>
      match global.Middlewares with
      | some mws => mws
      | none => emptySelector
    | _ => emptySelector

/-- Loading the global config does not fail: none is configured, the file does
not exist, or it parses. -/
def globalLoads (c : Compiler) (fs : FileSystem) : Prop :=
  c.globalFile = "" ∨ fs.globalFile = .notExist ∨ ∃ global, fs.globalFile = .parsed global

/-! ## Sample inputs -/

/-- A route with one static header. -/
def sampleRoute : Route :=
  { Path := "/users", Method := "GET", Target := "http://users.internal/list",
    Middlewares := none, Headers := some [("X", "1")] }

/-- A domain file: base path `/api`, a selector, two headers, one route. -/
def sampleConfig : RouteConfig :=
  { Domain := "users", BasePath := "/api", Routes := [sampleRoute],
    Middlewares := some { OnRequest := ["a", "b"], OnResponse := [] },
    Headers := some [("X", "2"), ("Y", "3")] }

/-- A listing with one good domain file, a text file and a subdirectory. -/
def sampleFiles : List DirEntry :=
  [ { Name := "users.json", IsDir := false, data := .parsed sampleConfig },
    { Name := "notes.txt", IsDir := false, data := .malformed },
    { Name := "old.json", IsDir := true, data := .unreadable } ]

/-- A file system with a global config that defines headers and no selector. -/
def sampleFS : FileSystem :=
  { globalFile := .parsed { Middlewares := none, Headers := some [("X", "9"), ("G", "g")] },
    readDir := some sampleFiles, mkdirAllOk := true, writeFileOk := true }

/-- The compiler the `compile` command builds. -/
def sampleCompiler : Compiler :=
  { configDir := "config/routes", outputDir := "build", globalFile := "config/global.json" }

/-- The manifest `sampleCompiler` writes on `sampleFS`. -/
def sampleManifest : CompiledRoutes :=
  { Middlewares := some { OnRequest := [], OnResponse := [] },
    Routes :=
      [ { Path := "/api/users", Method := "GET", Target := "http://users.internal/list",
          Middlewares := some { OnRequest := ["a", "b"], OnResponse := [] },
          Headers := some [("X", "1"), ("Y", "3")] } ] }

/-- A listing whose second domain file does not parse. -/
def brokenFiles : List DirEntry :=
  [ { Name := "users.json", IsDir := false, data := .parsed sampleConfig },
    { Name := "orders.json", IsDir := false, data := .malformed } ]

/-- A manager over handlers that are traces of wrapper names: `a` and `b` on
the request side, `t` and a second `a` on the response side. -/
def sampleManager : Manager (List String) :=
  { onRequestMiddlewares :=
      [("a", ⟨"a", fun next => "a" :: next⟩), ("b", ⟨"b", fun next => "b" :: next⟩)],
    onResponseMiddlewares :=
      [("t", ⟨"t", fun next => "t" :: next⟩), ("a", ⟨"a", fun next => "a/response" :: next⟩)],
    executionOrder := { OnRequest := [], OnResponse := [] } }

/-- A loader with nothing registered yet. -/
def sampleLoader : Loader (List String) :=
  { router := { middlewares := [], routes := [] }, middlewareManager := sampleManager }

/-- Upper-casing of the ASCII letters, standing in for `strings.ToUpper`. -/
def asciiUpper (s : String) : String :=
  String.mk (s.data.map Char.toUpper)

/-- A manifest whose third route has a method `Load` has no case for. -/
def sampleLoadManifest : CompiledRoutes :=
  { Middlewares := none,
    Routes :=
      [ { Path := "/x", Method := "get", Target := "x", Headers := none,
          Middlewares := some { OnRequest := ["a", "b"], OnResponse := [] } },
        { Path := "/y", Method := "POST", Target := "y", Headers := none, Middlewares := none },
        { Path := "/z", Method := "HEAD", Target := "z", Headers := none, Middlewares := none },
        { Path := "/w", Method := "PUT", Target := "w", Headers := none, Middlewares := none } ] }

/-- One character at a time; `upper` says whether the next letter is capitalised. -/
def canonicalChars : Bool → List Char → List Char
  | _, [] => []
  | upper, c :: cs => (if upper then c.toUpper else c.toLower) :: canonicalChars (c = '-') cs

/-- Canonical form of a header name over ASCII letters (upper case at the start
and after a hyphen, lower case elsewhere), standing in for
`textproto.CanonicalMIMEHeaderKey`. -/
def sampleCanonicalKey (s : String) : String :=
  String.mk (canonicalChars true s.data)

/-- The route of the end-to-end example, its header key in lower case. -/
def pingRoute : Route :=
  { Path := "/ping", Method := "GET", Target := "http://backend/healthz",
    Middlewares := none, Headers := some [("x-gw", "1")] }

/-- An inbound `GET /ping?a=1` with a two-valued header and an `X-Gw` of its own. -/
def pingRequest : Request :=
  { Method := "GET", URL := { Scheme := "", Host := "", Path := "/ping", RawQuery := "a=1" },
    Header := [("Accept", ["text/html", "text/plain"]), ("X-Gw", ["inbound"])],
    Body := [] }

/-- The context of `pingRequest` before the handler runs. -/
def pingContext : Context :=
  { Request := pingRequest, responseHeader := [], calls := [], sent := [] }

/-- A network with one backend: it answers `/healthz?a=1` with 200, one header
and a three-byte body.  Two URL strings parse: the target of `pingRoute`, and
that target followed by `?a=1`. -/
def sampleNet : Net :=
  { canonicalKey := sampleCanonicalKey,
    urlParse := fun s =>
      if s = "http://backend/healthz" then
        some { Scheme := "http", Host := "backend", Path := "/healthz", RawQuery := "" }
      else if s = "http://backend/healthz?a=1" then
        some { Scheme := "http", Host := "backend", Path := "/healthz", RawQuery := "a=1" }
      else none,
    validMethod := fun method =>
      decide (method ∈ ["GET", "HEAD", "POST", "PUT", "PATCH", "DELETE", "OPTIONS"]),
    removeEmptyPort := fun host => host,
    clientDo := fun r =>
      if r.URL = { Scheme := "http", Host := "backend", Path := "/healthz", RawQuery := "a=1" }
      then
        some { StatusCode := 200, Header := [("Content-Type", ["text/plain"])],
               Body := some [111, 107, 10] }
      else none }

/-- A domain whose one route sets header `x-gw` while the domain sets `X-Gw`:
two keys for `compileRoute`, one header name for `net/http`. -/
def collidingConfig : RouteConfig :=
  { Domain := "ping", BasePath := "", Middlewares := none,
    Headers := some [("X-Gw", "2")],
    Routes := [{ pingRoute with Headers := some [("x-gw", "1")] }] }

/-- The route `compileRoute` makes of the route of `collidingConfig`. -/
def collidingRoute : Route :=
  { pingRoute with Headers := some [("x-gw", "1"), ("X-Gw", "2")] }

/-- The same route with its header map visited in the other order. -/
def collidingRouteReversed : Route :=
  { pingRoute with Headers := some [("X-Gw", "2"), ("x-gw", "1")] }

/-- A file system whose global config defines a selector and whose domain
directory is empty. -/
def emptyDirFS : FileSystem :=
  { globalFile := .parsed { Middlewares := some { OnRequest := ["logger"], OnResponse := ["timer"] },
                            Headers := none },
    readDir := some [], mkdirAllOk := true, writeFileOk := true }

/-- A second domain file, with two routes and no base path. -/
def ordersConfig : RouteConfig :=
  { Domain := "orders", BasePath := "", Middlewares := none, Headers := none,
    Routes :=
      [ { Path := "/orders", Method := "post", Target := "http://orders.internal/new",
          Middlewares := none, Headers := none },
        { Path := "/orders/id", Method := "DELETE", Target := "http://orders.internal/drop",
          Middlewares := none, Headers := none } ] }

/-- A listing with two domain files around entries the compiler skips. -/
def twoDomainFiles : List DirEntry :=
  [ { Name := "README.md", IsDir := false, data := .unreadable },
    { Name := "users.json", IsDir := false, data := .parsed sampleConfig },
    { Name := "archive.json", IsDir := true, data := .malformed },
    { Name := "orders.json", IsDir := false, data := .parsed ordersConfig } ]

/-- The registry as the three middlewares of the repository fill it. -/
def sampleRegistry : Registry (List String) :=
  { onRequest :=
      [("logger", fun _ => ⟨"logger", fun next => "logger" :: next⟩),
       ("cors", fun _ => ⟨"cors", fun next => "cors" :: next⟩)],
    onResponse := [("timer", fun _ => ⟨"timer", fun next => "timer" :: next⟩)] }

/-- A registry whose one constructor is registered as `cors` and builds an
instance that calls itself `CORS`. -/
def renamingRegistry : Registry (List String) :=
  { onRequest := [("cors", fun _ => ⟨"CORS", fun next => "cors" :: next⟩)],
    onResponse := [] }

/-- A manager with one post-response instance, `timer`, and an execution order
that lists `timer` under the pre-request phase. -/
def crossPhaseManager : Manager (List String) :=
  { onRequestMiddlewares := [],
    onResponseMiddlewares := [("timer", ⟨"timer", fun next => "timer" :: next⟩)],
    executionOrder := { OnRequest := ["timer"], OnResponse := [] } }

/-- The file system of `sampleFS` with the listing `twoDomainFiles`. -/
def twoDomainFS : FileSystem :=
  { sampleFS with readDir := some twoDomainFiles }

/-! ## Go maps: reads after writes -/

theorem GoMap.get_set {V : Type} (m : GoMap V) (k : String) (v : V) (n : String) :
    (m.set k v).get n = if k = n then some v else m.get n := by
  induction m with
  | nil => simp [GoMap.set, GoMap.get]
  | cons e rest ih =>
    obtain ⟨k', v'⟩ := e
    by_cases h : k' = k
    · subst h
      by_cases hn : k' = n <;> simp [GoMap.set, GoMap.get, hn]
    · by_cases hn : k' = n
      · subst hn
        simp [GoMap.set, GoMap.get, h, Ne.symm h]
      · simp [GoMap.set, GoMap.get, h, hn, ih]

theorem mergeHeaders_get (configHeaders h : GoMap String) (k : String) :
    (mergeHeaders h configHeaders).get k =
      match h.get k with
      | some v => some v
      | none => configHeaders.get k := by
  induction configHeaders generalizing h with
  | nil => cases hk : h.get k <;> simp [mergeHeaders, GoMap.get, hk]
  | cons e rest ih =>
    obtain ⟨k', v'⟩ := e
    have step : mergeHeaders h ((k', v') :: rest) =
        mergeHeaders (match h.get k' with
          | some _ => h
          | none => h.set k' v') rest := rfl
    rw [step, ih]
    cases hk' : h.get k' with
    | some w =>
      cases hk : h.get k with
      | some v => simp
      | none =>
        have : k' ≠ k := fun e => by rw [e, hk] at hk'; cases hk'
        simp [GoMap.get, this]
    | none =>
      by_cases e : k' = k
      · subst e
        simp [GoMap.get_set, hk', GoMap.get]
      · cases hk : h.get k <;> simp [GoMap.get_set, e, hk, GoMap.get]

/-! ## The compiler's loops in closed form -/

theorem compileConfig_eq (config : RouteConfig) (compiled : CompiledRoutes) :
    compileConfig config compiled =
      { compiled with
        Routes := compiled.Routes ++ config.Routes.map (compileRoute config) } := by
  unfold compileConfig
  generalize config.Routes = routes
  induction routes generalizing compiled with
  | nil => simp
  | cons r rest ih => simp [List.foldl_cons, ih]

theorem compileFiles_ok (files : List DirEntry) (compiled result : CompiledRoutes)
    (h : compileFiles files compiled = .ok result) :
    result =
      { compiled with
        Routes := compiled.Routes ++
          (domainConfigs files).flatMap fun config =>
            config.Routes.map (compileRoute config) } := by
  induction files generalizing compiled with
  | nil =>
    simp [compileFiles] at h
    simp [domainConfigs, ← h]
  | cons file rest ih =>
    unfold compileFiles at h
    by_cases hs : (file.IsDir || !hasSuffix file.Name ".json") = true
    · rw [if_pos hs] at h
      have ha : accepted file = false := by
        simp only [accepted]
        simp only [Bool.or_eq_true, Bool.not_eq_true'] at hs
        rcases hs with hs | hs <;> simp [hs]
      rw [ih compiled h]
      simp [domainConfigs, List.filterMap_cons, ha]
    · rw [if_neg hs] at h
      have ha : accepted file = true := by
        simp only [accepted]
        simp only [Bool.or_eq_true, Bool.not_eq_true', not_or, Bool.not_eq_true,
          Bool.not_eq_false] at hs
        simp [hs.1, hs.2]
      cases hd : file.data with
      | notExist => simp [hd] at h
      | unreadable => simp [hd] at h
      | malformed => simp [hd] at h
      | parsed config =>
        simp only [hd] at h
        rw [ih _ h, compileConfig_eq]
        simp [domainConfigs, List.filterMap_cons, ha, hd, List.flatMap_cons]

/-- An accepted entry that does not parse makes the file loop fail. -/
theorem compileFiles_error (files : List DirEntry) (compiled : CompiledRoutes)
    (file : DirEntry) (hmem : file ∈ files) (hacc : accepted file = true)
    (hbad : ∀ config, file.data ≠ .parsed config) :
    ∃ e, compileFiles files compiled = .error e := by
  induction files generalizing compiled with
  | nil => cases hmem
  | cons f rest ih =>
    unfold compileFiles
    by_cases hs : (f.IsDir || !hasSuffix f.Name ".json") = true
    · rw [if_pos hs]
      rcases List.mem_cons.mp hmem with e | hin
      · subst e
        simp only [accepted, Bool.and_eq_true, Bool.not_eq_true'] at hacc
        simp [hacc.1, hacc.2] at hs
      · exact ih compiled hin
    · rw [if_neg hs]
      cases hd : f.data with
      | notExist => exact ⟨_, rfl⟩
      | unreadable => exact ⟨_, rfl⟩
      | malformed => exact ⟨_, rfl⟩
      | parsed config =>
        rcases List.mem_cons.mp hmem with e | hin
        · subst e
          exact absurd hd (hbad config)
        · exact ih _ hin

/-- Whatever `Compile` writes is the flattening of the accepted files. -/
theorem Compile_written (c : Compiler) (fs : FileSystem) (files : List DirEntry)
    (dir name : String) (m : CompiledRoutes)
    (hdir : fs.readDir = some files)
    (hw : FsOp.writeFile dir name m ∈ (c.Compile fs).2) :
    m.Routes =
      (domainConfigs files).flatMap fun config =>
        config.Routes.map (compileRoute config) := by
  unfold Compiler.Compile at hw
  simp only [hdir] at hw
  split at hw
  · simp at hw
  · rename_i loaded compiled hl
    split at hw
    · simp at hw
    · rename_i result hr
      have hroutes : compiled.Routes = [] := by
        by_cases hg : c.globalFile ≠ ""
        · rw [if_pos hg] at hl
          unfold Compiler.loadGlobalConfig at hl
          split at hl
          · cases hl; rfl
          · cases hl
          · cases hl
          · split at hl <;> (cases hl; rfl)
        · rw [if_neg hg] at hl
          cases hl; rfl
      have := compileFiles_ok files compiled result hr
      split at hw
      · simp at hw
      · split at hw
        · simp at hw
          rw [hw.2.2, this, hroutes]; simp
        · simp at hw
          rw [hw.2.2, this, hroutes]; simp

/-! ## Header merge, selector inheritance, path prefixing -/

theorem compileRoute_Headers (config : RouteConfig) (route : Route) :
    (compileRoute config route).Headers =
      some (match config.Headers with
        | none => route.Headers.getD []
        | some configHeaders => mergeHeaders (route.Headers.getD []) configHeaders) := by
  simp only [compileRoute]
  split_ifs <;> cases route.Headers <;> cases config.Headers <;> rfl

/-- C1: when `Compile` writes a manifest, its routes are the routes of the
accepted domain files passed through `compileRoute`, which never looks at the
global config; and for every domain config, every route and every key `k`, the
compiled route has a header map in which `k` reads as the route's own value
when the route has `k`, else as the domain's value when the domain has `k`, and
else is missing. -/
theorem compile_headers_first_definition_wins (c : Compiler) (fs : FileSystem)
    (files : List DirEntry) (m : CompiledRoutes)
    (hdir : fs.readDir = some files)
    (hw : FsOp.writeFile c.outputDir "routes.json" m ∈ (c.Compile fs).2) :
    m.Routes =
        ((domainConfigs files).flatMap fun config =>
          config.Routes.map (compileRoute config)) ∧
      ∀ (config : RouteConfig) (route : Route) (k : String),
        ∃ h, (compileRoute config route).Headers = some h ∧
          h.get k =
            match (route.Headers.getD []).get k with
            | some v => some v
            | none => (config.Headers.getD []).get k := by
  refine ⟨Compile_written c fs files _ _ m hdir hw, ?_⟩
  intro config route k
  rw [compileRoute_Headers]
  refine ⟨_, rfl, ?_⟩
  cases hc : config.Headers with
  | none => cases hk : (route.Headers.getD []).get k <;> simp [GoMap.get]
  | some d => simp [mergeHeaders_get]

/-- C2: the compiled route's selector is the route's own selector when the
route has one (an empty one included), and the domain's selector, present or
absent, when the route has none; so it is always one of the two, unmerged.
The same holds file-wide for the routes a domain file adds to the manifest. -/
theorem compile_selector_own_or_inherited (config : RouteConfig) (route : Route)
    (compiled : CompiledRoutes) :
    ((compileRoute config route).Middlewares =
        match route.Middlewares with
        | some own => some own
        | none => config.Middlewares) ∧
      ((compileRoute config route).Middlewares = route.Middlewares ∨
        (compileRoute config route).Middlewares = config.Middlewares) ∧
      (compileConfig config compiled).Routes.map (fun r => r.Middlewares) =
        compiled.Routes.map (fun r => r.Middlewares) ++
          config.Routes.map fun r =>
            match r.Middlewares with
            | some own => some own
            | none => config.Middlewares := by
  have key : ∀ r : Route, (compileRoute config r).Middlewares =
      match r.Middlewares with
      | some own => some own
      | none => config.Middlewares := by
    intro r
    cases hr : r.Middlewares <;> cases hc : config.Middlewares <;>
      simp [compileRoute, hr, hc] <;> split <;> simp [hr]
  refine ⟨key route, ?_, ?_⟩
  · rw [key route]
    cases route.Middlewares <;> simp
  · rw [compileConfig_eq]
    simp [List.map_append, key, Function.comp_def]

/-- C3: the compiled route's path is the domain's base path followed by the
route's path, for the empty base path too; the same holds file-wide for the
routes a domain file adds to the manifest. -/
theorem compile_path_is_concatenation (config : RouteConfig) (route : Route)
    (compiled : CompiledRoutes) :
    (compileRoute config route).Path = config.BasePath ++ route.Path ∧
      (compileConfig config compiled).Routes.map (fun r => r.Path) =
        compiled.Routes.map (fun r => r.Path) ++
          config.Routes.map fun r => config.BasePath ++ r.Path := by
  have key : ∀ r : Route, (compileRoute config r).Path = config.BasePath ++ r.Path := by
    intro r
    by_cases hb : config.BasePath = ""
    · simp [compileRoute, hb]
      split <;> simp
    · simp [compileRoute, hb]
      split <;> simp
  refine ⟨key route, ?_⟩
  rw [compileConfig_eq]
  simp [List.map_append, key, Function.comp_def]

/-- C1 at a concrete input: route `{X:1}` in a domain with `{X:2, Y:3}`,
global headers `{X:9, G:g}`. -/
theorem compile_headers_first_definition_wins_witness :
    (sampleManifest.Routes =
        ((domainConfigs sampleFiles).flatMap fun config =>
          config.Routes.map (compileRoute config)) ∧
      ∀ (config : RouteConfig) (route : Route) (k : String),
        ∃ h, (compileRoute config route).Headers = some h ∧
          h.get k =
            match (route.Headers.getD []).get k with
            | some v => some v
            | none => (config.Headers.getD []).get k) ∧
      (compileRoute sampleConfig sampleRoute).Headers = some [("X", "1"), ("Y", "3")] ∧
      sampleCompiler.Compile sampleFS =
        (.ok (), [.mkdirAll "build", .writeFile "build" "routes.json" sampleManifest]) :=
  ⟨compile_headers_first_definition_wins sampleCompiler sampleFS sampleFiles sampleManifest
      rfl (by decide),
    by decide, rfl⟩

/-- C2 at a concrete input: a route without a selector inherits the domain's,
a route with an empty selector keeps it. -/
theorem compile_selector_own_or_inherited_witness :
    (compileRoute sampleConfig sampleRoute).Middlewares =
        some { OnRequest := ["a", "b"], OnResponse := [] } ∧
      (compileRoute sampleConfig
        { sampleRoute with Middlewares := some { OnRequest := [], OnResponse := [] } }).Middlewares =
        some { OnRequest := [], OnResponse := [] } ∧
      (compileRoute { sampleConfig with Middlewares := none } sampleRoute).Middlewares = none :=
  ⟨(compile_selector_own_or_inherited sampleConfig sampleRoute ⟨none, []⟩).1,
    by decide, by decide⟩

/-- C3 at the two inputs of the specification. -/
theorem compile_path_is_concatenation_witness :
    (compileRoute sampleConfig sampleRoute).Path = "/api/users" ∧
      (compileRoute { sampleConfig with BasePath := "" } sampleRoute).Path = "/users" :=
  ⟨(compile_path_is_concatenation sampleConfig sampleRoute ⟨none, []⟩).1,
    (compile_path_is_concatenation { sampleConfig with BasePath := "" } sampleRoute
      ⟨none, []⟩).1⟩

/-! ## Compile writes nothing when a domain file is malformed -/

/-- C6: if the listing holds an entry that is not a directory, whose name ends
in `.json` and which does not parse, `Compile` returns an error and makes no
call that changes the file system: neither `MkdirAll` nor `WriteFile`.  The
position of the entry and the other entries play no part. -/
theorem compile_malformed_domain_writes_nothing (c : Compiler) (fs : FileSystem)
    (files : List DirEntry) (file : DirEntry)
    (hdir : fs.readDir = some files) (hmem : file ∈ files)
    (hfile : file.IsDir = false) (hname : hasSuffix file.Name ".json" = true)
    (hbad : file.data = .malformed) :
    (∃ e, (c.Compile fs).1 = .error e) ∧ (c.Compile fs).2 = [] := by
  have hacc : accepted file = true := by simp [accepted, hfile, hname]
  have hnp : ∀ config, file.data ≠ .parsed config := by
    intro config h
    rw [hbad] at h
    cases h
  unfold Compiler.Compile
  simp only [hdir]
  split
  · exact ⟨⟨_, rfl⟩, rfl⟩
  · rename_i compiled _
    obtain ⟨e, he⟩ := compileFiles_error files compiled file hmem hacc hnp
    rw [he]
    exact ⟨⟨_, rfl⟩, rfl⟩

/-- C6 at a concrete input: the second of two domain files is malformed. -/
theorem compile_malformed_domain_writes_nothing_witness :
    sampleCompiler.Compile { sampleFS with readDir := some brokenFiles } =
        (.error (.parseFile "orders.json"), []) ∧
      ((∃ e, (sampleCompiler.Compile { sampleFS with readDir := some brokenFiles }).1 =
          .error e) ∧
        (sampleCompiler.Compile { sampleFS with readDir := some brokenFiles }).2 = []) :=
  ⟨rfl,
    compile_malformed_domain_writes_nothing sampleCompiler
      { sampleFS with readDir := some brokenFiles } brokenFiles
      { Name := "orders.json", IsDir := false, data := .malformed }
      rfl (by decide) rfl (by decide) rfl⟩

/-! ## Resolving names to wrapping functions -/

section Resolve

variable {H : Type}

/-- What one name contributes to the result of `GetMiddlewares`. -/
theorem GetMiddlewares_foldl (m : Manager H) (names : List String) (acc : List (H → H)) :
    names.foldl
        (fun middlewares name =>
          match m.onRequestMiddlewares.get name with
          | some mw => middlewares ++ [mw.Handle]
          | none =>
            match m.onResponseMiddlewares.get name with
            | some mw => middlewares ++ [mw.Handle]
            | none => middlewares)
        acc =
      acc ++ names.filterMap fun name =>
        match m.onRequestMiddlewares.get name with
        | some mw => some mw.Handle
        | none =>
          match m.onResponseMiddlewares.get name with
          | some mw => some mw.Handle
          | none => none := by
  induction names generalizing acc with
  | nil => simp
  | cons name rest ih =>
    rw [List.foldl_cons, ih]
    cases h1 : m.onRequestMiddlewares.get name with
    | some mw => simp [List.filterMap_cons, h1]
    | none =>
      cases h2 : m.onResponseMiddlewares.get name with
      | some mw => simp [List.filterMap_cons, h1, h2]
      | none => simp [List.filterMap_cons, h1, h2]

theorem GetMiddlewares_eq (m : Manager H) (names : List String) :
    m.GetMiddlewares names =
      names.filterMap fun name =>
        match m.onRequestMiddlewares.get name with
        | some mw => some mw.Handle
        | none =>
          match m.onResponseMiddlewares.get name with
          | some mw => some mw.Handle
          | none => none := by
  unfold Manager.GetMiddlewares
  rw [GetMiddlewares_foldl]
  simp

theorem GetMiddlewares_nil (m : Manager H) : m.GetMiddlewares [] = [] := rfl

theorem GetMiddlewares_length (m : Manager H) (names : List String) :
    (m.GetMiddlewares names).length = (names.filter m.registered).length := by
  rw [GetMiddlewares_eq]
  induction names with
  | nil => rfl
  | cons name rest ih =>
    cases h1 : m.onRequestMiddlewares.get name with
    | some mw => simp [List.filterMap_cons, List.filter_cons, Manager.registered, h1, ih]
    | none =>
      cases h2 : m.onResponseMiddlewares.get name with
      | some mw => simp [List.filterMap_cons, List.filter_cons, Manager.registered, h1, h2, ih]
      | none => simp [List.filterMap_cons, List.filter_cons, Manager.registered, h1, h2, ih]

theorem length_filter_eq_iff {α : Type} (p : α → Bool) (l : List α) :
    (l.filter p).length = l.length ↔ ∀ a ∈ l, p a = true := by
  induction l with
  | nil => simp
  | cons a rest ih =>
    by_cases hp : p a = true
    · simp [List.filter_cons, hp, ih]
    · have hle := List.length_filter_le p rest
      have hf : (a :: rest).filter p = rest.filter p := by
        simp [List.filter_cons, hp]
      rw [hf, List.length_cons]
      constructor
      · intro h; omega
      · intro h; exact absurd (h a (List.mem_cons_self a rest)) hp

/-- C5: `GetMiddlewares` walks the names in order and yields, for each name,
the `Handle` of its pre-request instance if there is one, else the `Handle` of
its post-response instance if there is one, else nothing.  So the result is as
long as the number of registered entries of the list, and as long as the list
exactly when every name in the list is registered. -/
theorem getMiddlewares_resolves_in_order (m : Manager H) (names : List String) :
    (m.GetMiddlewares names =
        names.filterMap fun name =>
          match m.onRequestMiddlewares.get name with
          | some mw => some mw.Handle
          | none =>
            match m.onResponseMiddlewares.get name with
            | some mw => some mw.Handle
            | none => none) ∧
      (m.GetMiddlewares names).length = (names.filter m.registered).length ∧
      ((m.GetMiddlewares names).length = names.length ↔
        ∀ name ∈ names, m.registered name = true) :=
  ⟨GetMiddlewares_eq m names, GetMiddlewares_length m names, by
    rw [GetMiddlewares_length]
    exact length_filter_eq_iff _ _⟩

end Resolve

/-! ## Load: wrapping order and the stop at an unsupported method -/

section Load

variable {H : Type}

theorem applyReverse_eq (mws : List (H → H)) (n : Nat) (handler : H) :
    applyReverse mws n handler = (mws.take n).foldr (fun mw next => mw next) handler := by
  induction n generalizing handler with
  | zero => simp [applyReverse]
  | succ i ih =>
    rw [applyReverse, ih, List.take_succ, List.foldr_append]
    cases mws[i]? <;> rfl

theorem wrapRoute_eq (m : Manager H) (route : Route) (handler : H) :
    wrapRoute m route handler =
      (routeChain m route).foldr (fun mw next => mw next) handler := by
  unfold wrapRoute routeChain
  cases route.Middlewares with
  | none => rfl
  | some mws =>
    simp only [applyReverse_eq, List.take_length]
    have h1 : (if mws.OnRequest.length > 0 then
        ([] : List (H → H)) ++ m.GetMiddlewares mws.OnRequest else []) =
        m.GetMiddlewares mws.OnRequest := by
      cases h : mws.OnRequest <;> simp [GetMiddlewares_nil]
    rw [h1]
    have h2 : (if mws.OnResponse.length > 0 then
        m.GetMiddlewares mws.OnRequest ++ m.GetMiddlewares mws.OnResponse
        else m.GetMiddlewares mws.OnRequest) =
        m.GetMiddlewares mws.OnRequest ++ m.GetMiddlewares mws.OnResponse := by
      cases h : mws.OnResponse <;> simp [GetMiddlewares_nil]
    rw [h2]

/-- The route loop of `Load` in closed form. -/
theorem registerRoutes_eq (toUpper : String → String) (mk : Route → H) (m : Manager H)
    (routes : List Route) (router : Router H) :
    registerRoutes toUpper mk m routes router =
      ((match routes.find? (fun r => !supported toUpper r) with
        | none => .ok ()
        | some r => .error (.unsupportedMethod r.Method)),
       { router with
         routes := router.routes ++
           (routes.takeWhile (supported toUpper)).map fun r =>
             ⟨toUpper r.Method, r.Path, wrapRoute m r (mk r)⟩ }) := by
  induction routes generalizing router with
  | nil => simp [registerRoutes]
  | cons route rest ih =>
    unfold registerRoutes
    by_cases h1 : toUpper route.Method = "GET"
    · have hs : supported toUpper route = true := by simp [supported, h1]
      simp [h1, ih, hs, Router.GET]
    by_cases h2 : toUpper route.Method = "POST"
    · have hs : supported toUpper route = true := by simp [supported, h2]
      simp [h2, ih, hs, Router.POST]
    by_cases h3 : toUpper route.Method = "PUT"
    · have hs : supported toUpper route = true := by simp [supported, h3]
      simp [h3, ih, hs, Router.PUT]
    by_cases h4 : toUpper route.Method = "DELETE"
    · have hs : supported toUpper route = true := by simp [supported, h4]
      simp [h4, ih, hs, Router.DELETE]
    by_cases h5 : toUpper route.Method = "PATCH"
    · have hs : supported toUpper route = true := by simp [supported, h5]
      simp [h5, ih, hs, Router.PATCH]
    have hs : supported toUpper route = false := by simp [supported, h1, h2, h3, h4, h5]
    simp [h1, h2, h3, h4, h5, hs]

theorem applyGlobal_routes (l : Loader H) (compiled : CompiledRoutes) :
    (applyGlobal l compiled).routes = l.router.routes := by
  unfold applyGlobal
  cases compiled.Middlewares with
  | none => rfl
  | some mws =>
    simp only
    split_ifs <;> rfl

/-- Up to the first unsupported route, `takeWhile` is `take` and `find?` finds it. -/
theorem first_unsupported (p : Route → Bool) (routes : List Route) (i : Nat) (r : Route)
    (hi : routes[i]? = some r) (hbad : p r = false)
    (hfirst : ∀ j r', j < i → routes[j]? = some r' → p r' = true) :
    routes.takeWhile p = routes.take i ∧ routes.find? (fun r => !p r) = some r := by
  induction routes generalizing i with
  | nil => simp at hi
  | cons a rest ih =>
    cases i with
    | zero =>
      simp at hi
      subst hi
      simp [List.takeWhile_cons, hbad]
    | succ i =>
      have ha : p a = true := hfirst 0 a (Nat.succ_pos i) (by simp)
      have hrest := ih i (by simpa using hi)
        (fun j r' hj hr => hfirst (j + 1) r' (Nat.succ_lt_succ hj) (by simpa using hr))
      simp [List.takeWhile_cons, ha, hrest.1, hrest.2]

/-- C4: the handler `Load` builds for a route is the right fold of the route's
chain over the proxy handler, `m1 (m2 (... (mn h)))` for the chain
`[m1, ..., mn]` that `GetMiddlewares` yields for `onRequest` followed by
`onResponse`; a route without a selector gets the proxy handler itself; and
the routes `Load` registers carry exactly these handlers. -/
theorem load_wraps_first_listed_outermost (l : Loader H) (toUpper : String → String)
    (createProxyHandler : Route → H) (compiled : CompiledRoutes) :
    (∀ (route : Route) (h : H),
        wrapRoute l.middlewareManager route h =
          (routeChain l.middlewareManager route).foldr (fun mw next => mw next) h) ∧
      (∀ (route : Route) (h : H), route.Middlewares = none →
        wrapRoute l.middlewareManager route h = h) ∧
      (l.Load toUpper createProxyHandler compiled).2.routes =
        l.router.routes ++
          (compiled.Routes.takeWhile (supported toUpper)).map fun route =>
            ⟨toUpper route.Method, route.Path,
              (routeChain l.middlewareManager route).foldr (fun mw next => mw next)
                (createProxyHandler route)⟩ := by
  refine ⟨wrapRoute_eq l.middlewareManager, ?_, ?_⟩
  · intro route h hnone
    simp [wrapRoute, hnone]
  · unfold Loader.Load
    rw [registerRoutes_eq, applyGlobal_routes]
    simp [wrapRoute_eq]

/-- C7: if the first route whose upper-cased method is none of `GET`, `POST`,
`PUT`, `DELETE`, `PATCH` sits at index `i`, `Load` returns an error and the
router has gained the routes before index `i`, in manifest order, each under
its upper-cased method and its path, and nothing else.  `Load` returns without
error exactly when every route's method is one of the five. -/
theorem load_stops_at_first_unsupported (l : Loader H) (toUpper : String → String)
    (createProxyHandler : Route → H) (compiled : CompiledRoutes) :
    (∀ (i : Nat) (r : Route), compiled.Routes[i]? = some r →
        supported toUpper r = false →
        (∀ j r', j < i → compiled.Routes[j]? = some r' → supported toUpper r' = true) →
        (l.Load toUpper createProxyHandler compiled).1 = .error (.unsupportedMethod r.Method) ∧
          (l.Load toUpper createProxyHandler compiled).2.routes.map
              (fun reg => (reg.method, reg.path)) =
            l.router.routes.map (fun reg => (reg.method, reg.path)) ++
              (compiled.Routes.take i).map fun route => (toUpper route.Method, route.Path)) ∧
      ((l.Load toUpper createProxyHandler compiled).1 = .ok () ↔
        ∀ route ∈ compiled.Routes, supported toUpper route = true) := by
  unfold Loader.Load
  rw [registerRoutes_eq, applyGlobal_routes]
  constructor
  · intro i r hi hbad hfirst
    obtain ⟨htake, hfind⟩ := first_unsupported (supported toUpper) compiled.Routes i r hi hbad hfirst
    simp [htake, hfind, Function.comp_def]
  · cases hf : compiled.Routes.find? (fun r => !supported toUpper r) with
    | none =>
      simp only [true_iff]
      intro route hmem
      have := List.find?_eq_none.mp hf route hmem
      simpa using this
    | some r =>
      have hr := List.find?_some hf
      have hm := List.mem_of_find?_eq_some hf
      simp only [false_iff, reduceCtorEq]
      intro hall
      have := hall r hm
      simp [this] at hr

end Load

/-! ## Concrete runs of the manager and the loader -/

/-- C5 at a concrete input: `a` exists in both phases, `zz` in none, `t` in
the response phase only. -/
theorem getMiddlewares_resolves_in_order_witness :
    (sampleManager.GetMiddlewares ["a", "zz", "t"]).map (fun mw => mw []) = [["a"], ["t"]] ∧
      (sampleManager.GetMiddlewares ["a", "zz", "t"]).length =
        (["a", "zz", "t"].filter sampleManager.registered).length ∧
      (sampleManager.GetMiddlewares ["a", "zz", "t"]).length = 2 :=
  ⟨by decide, (getMiddlewares_resolves_in_order sampleManager ["a", "zz", "t"]).2.1, by decide⟩

/-- C4 at a concrete input: selector `onRequest: ["a", "b"]` gives `a (b h)`. -/
theorem load_wraps_first_listed_outermost_witness :
    (sampleLoader.Load asciiUpper (fun route => [route.Target]) sampleLoadManifest).2.routes.map
        (fun reg => (reg.method, reg.path, reg.handler)) =
        [("GET", "/x", ["a", "b", "x"]), ("POST", "/y", ["y"])] ∧
      wrapRoute sampleManager
          { Path := "/x", Method := "get", Target := "x", Headers := none,
            Middlewares := some { OnRequest := ["a", "b"], OnResponse := [] } } ["h"] =
        (routeChain sampleManager
          { Path := "/x", Method := "get", Target := "x", Headers := none,
            Middlewares := some { OnRequest := ["a", "b"], OnResponse := [] } }).foldr
          (fun mw next => mw next) ["h"] :=
  ⟨by decide,
    (load_wraps_first_listed_outermost sampleLoader asciiUpper (fun route => [route.Target])
      sampleLoadManifest).1 _ _⟩

/-- C7 at a concrete input: the third route has method `HEAD`. -/
theorem load_stops_at_first_unsupported_witness :
    (sampleLoader.Load asciiUpper (fun route => [route.Target]) sampleLoadManifest).1 =
        .error (.unsupportedMethod "HEAD") ∧
      (sampleLoader.Load asciiUpper (fun route => [route.Target]) sampleLoadManifest).2.routes.map
          (fun reg => (reg.method, reg.path)) =
        [] ++ [("GET", "/x"), ("POST", "/y")] :=
  (load_stops_at_first_unsupported sampleLoader asciiUpper (fun route => [route.Target])
      sampleLoadManifest).1 2
    { Path := "/z", Method := "HEAD", Target := "z", Headers := none, Middlewares := none }
    rfl (by decide)
    (by
      intro j r hj hr
      match j, hj with
      | 0, _ =>
        have e : sampleLoadManifest.Routes[0]? = some r := hr
        have e2 : r = _ := (Option.some.inj e).symm
        rw [e2]; decide
      | 1, _ =>
        have e : sampleLoadManifest.Routes[1]? = some r := hr
        have e2 : r = _ := (Option.some.inj e).symm
        rw [e2]; decide)

/-! ## Header maps: Add and Set -/

theorem Header.get_after_Add (canon : String → String) (h : Header) (key value n : String) :
    (h.Add canon key value).get n =
      if canon key = n then some (h.Values n ++ [value]) else h.get n := by
  unfold Header.Add Header.Values
  simp only [GoMap.get_set]
  by_cases e : canon key = n
  · subst e; simp
  · simp [e]

theorem Header.get_after_Set (canon : String → String) (h : Header) (key value n : String) :
    (h.Set canon key value).get n = if canon key = n then some [value] else h.get n := by
  unfold Header.Set
  rw [GoMap.get_set]

/-- Adding all values of one key. -/
theorem addValues_get (canon : String → String) (key : String) (values : List String)
    (dst : Header) (n : String) :
    (values.foldl (fun dst value => dst.Add canon key value) dst).get n =
      if canon key = n ∧ values ≠ [] then some (dst.Values n ++ values) else dst.get n := by
  induction values generalizing dst with
  | nil => simp
  | cons v rest ih =>
    rw [List.foldl_cons, ih]
    by_cases e : canon key = n
    · cases rest with
      | nil => simp [e, Header.get_after_Add]
      | cons w rest => simp [e, Header.Values, Header.get_after_Add]
    · simp [e, Header.get_after_Add]

theorem valuesUnder_cons (canon : String → String) (kv : String × List String) (h : Header)
    (n : String) :
    valuesUnder canon (kv :: h) n =
      (if canon kv.1 = n then kv.2 else []) ++ valuesUnder canon h n := by
  unfold valuesUnder
  by_cases e : canon kv.1 = n <;> simp [List.filter_cons, e, List.flatMap_cons]

/-- Copying a header map onto another one. -/
theorem copyHeader_get (canon : String → String) (src dst : Header) (n : String) :
    (copyHeader canon src dst).get n =
      if valuesUnder canon src n = [] then dst.get n
      else some (dst.Values n ++ valuesUnder canon src n) := by
  unfold copyHeader
  induction src generalizing dst with
  | nil => simp [valuesUnder]
  | cons kv rest ih =>
    rw [List.foldl_cons, ih, valuesUnder_cons]
    by_cases e : canon kv.1 = n
    · by_cases hv : kv.2 = []
      · simp [e, hv, addValues_get, Header.Values]
      · simp [e, hv, addValues_get, Header.Values]
    · simp [e, addValues_get, Header.Values]

theorem copyHeader_Values (canon : String → String) (src dst : Header) (n : String) :
    (copyHeader canon src dst).Values n = dst.Values n ++ valuesUnder canon src n := by
  unfold Header.Values
  rw [copyHeader_get]
  by_cases hv : valuesUnder canon src n = []
  · simp [hv]
  · simp [hv, Header.Values]

theorem staticValue_cons (canon : String → String) (kv : String × String)
    (headers : GoMap String) (n : String) :
    staticValue canon (kv :: headers) n =
      match staticValue canon headers n with
      | some v => some v
      | none => if canon kv.1 = n then some kv.2 else none := by
  unfold staticValue
  rw [List.reverse_cons, List.find?_append]
  cases hf : List.find? (fun kv => decide (canon kv.1 = n)) headers.reverse with
  | some x => simp
  | none =>
    by_cases e : canon kv.1 = n <;> simp [List.find?_cons, e]

/-- Setting all route headers. -/
theorem setHeaders_get (canon : String → String) (headers : GoMap String) (h : Header)
    (n : String) :
    (setHeaders canon headers h).get n =
      match staticValue canon headers n with
      | some v => some [v]
      | none => h.get n := by
  unfold setHeaders
  induction headers generalizing h with
  | nil => simp [staticValue]
  | cons kv rest ih =>
    rw [List.foldl_cons, ih, staticValue_cons]
    cases hs : staticValue canon rest n with
    | some v => simp
    | none =>
      by_cases e : canon kv.1 = n <;> simp [Header.get_after_Set, e]

/-- The outbound header map, key by key. -/
theorem proxyHeader_get (canon : String → String) (route : Route) (req : Request)
    (n : String) :
    (proxyHeader canon route req).get n =
      match staticValue canon (route.Headers.getD []) n with
      | some v => some [v]
      | none =>
        if valuesUnder canon req.Header n = [] then none
        else some (valuesUnder canon req.Header n) := by
  unfold proxyHeader
  cases hr : route.Headers with
  | none =>
    simp only [Option.getD, staticValue, List.reverse_nil, List.find?_nil, Option.map_none']
    rw [copyHeader_get]
    simp [GoMap.get, Header.Values]
  | some headers =>
    simp only [Option.getD]
    rw [setHeaders_get, copyHeader_get]
    simp [GoMap.get, Header.Values]

theorem staticValue_none (canon : String → String) (headers : GoMap String) (n : String)
    (h : ∀ kv ∈ headers, canon kv.1 ≠ n) : staticValue canon headers n = none := by
  induction headers with
  | nil => rfl
  | cons kv rest ih =>
    rw [staticValue_cons, ih (fun x hx => h x (List.mem_cons_of_mem _ hx))]
    simp [h kv (List.mem_cons_self _ _)]

theorem staticValue_mem (canon : String → String) (headers : GoMap String) (n v : String)
    (h : staticValue canon headers n = some v) : ∃ k, (k, v) ∈ headers ∧ canon k = n := by
  induction headers with
  | nil => simp [staticValue] at h
  | cons kv rest ih =>
    rw [staticValue_cons] at h
    cases hs : staticValue canon rest n with
    | some w =>
      rw [hs] at h
      simp only [Option.some.injEq] at h
      subst h
      obtain ⟨k, hk, hc⟩ := ih hs
      exact ⟨k, List.mem_cons_of_mem _ hk, hc⟩
    | none =>
      rw [hs] at h
      by_cases e : canon kv.1 = n
      · simp only [e, if_true, Option.some.injEq] at h
        exact ⟨kv.1, by rw [← h]; exact List.mem_cons_self _ _, e⟩
      · simp [e] at h

theorem staticValue_of_mem (canon : String → String) (headers : GoMap String) (k v : String)
    (h : (k, v) ∈ headers) : ∃ v', staticValue canon headers (canon k) = some v' := by
  induction headers with
  | nil => cases h
  | cons kv rest ih =>
    rw [staticValue_cons]
    cases hs : staticValue canon rest (canon k) with
    | some w => exact ⟨w, rfl⟩
    | none =>
      rcases List.mem_cons.mp h with e | hin
      · subst e
        exact ⟨v, by simp⟩
      · obtain ⟨v', hv'⟩ := ih hin
        rw [hs] at hv'
        cases hv'

theorem staticValue_nodup (canon : String → String) (headers : GoMap String) (k v : String)
    (hnd : (headers.map fun kv => canon kv.1).Nodup) (h : (k, v) ∈ headers) :
    staticValue canon headers (canon k) = some v := by
  induction headers with
  | nil => cases h
  | cons kv rest ih =>
    rw [List.map_cons, List.nodup_cons] at hnd
    rw [staticValue_cons]
    rcases List.mem_cons.mp h with e | hin
    · subst e
      have hnone : staticValue canon rest (canon k) = none := by
        apply staticValue_none
        intro x hx hc
        exact hnd.1 (List.mem_map.mpr ⟨x, hx, hc⟩)
      simp [hnone]
    · rw [ih hnd.2 hin]

theorem valuesUnder_none (canon : String → String) (h : Header) (n : String)
    (hno : ∀ kv ∈ h, canon kv.1 ≠ n) : valuesUnder canon h n = [] := by
  induction h with
  | nil => rfl
  | cons kv rest ih =>
    rw [valuesUnder_cons, ih (fun x hx => hno x (List.mem_cons_of_mem _ hx))]
    simp [hno kv (List.mem_cons_self _ _)]

theorem valuesUnder_nodup (canon : String → String) (h : Header) (k : String)
    (vs : List String) (hnd : (h.map fun kv => canon kv.1).Nodup) (hmem : (k, vs) ∈ h) :
    valuesUnder canon h (canon k) = vs := by
  induction h with
  | nil => cases hmem
  | cons kv rest ih =>
    rw [List.map_cons, List.nodup_cons] at hnd
    rw [valuesUnder_cons]
    rcases List.mem_cons.mp hmem with e | hin
    · subst e
      have hnone : valuesUnder canon rest (canon k) = [] := by
        apply valuesUnder_none
        intro x hx hc
        exact hnd.1 (List.mem_map.mpr ⟨x, hx, hc⟩)
      simp [hnone]
    · have hne : canon kv.1 ≠ canon k := by
        intro hc
        exact hnd.1 (List.mem_map.mpr ⟨(k, vs), hin, hc.symm⟩)
      simp [hne, ih hnd.2 hin]

/-! ## The proxy handler -/

/-- What `http.NewRequest` returns when it returns a request. -/
theorem NewRequest_some (net : Net) (method url : String) (body : List Nat)
    (built : ProxyRequest) (h : NewRequest net method url body = some built) :
    net.validMethod (outboundMethod method) = true ∧
      ∃ u, net.urlParse url = some u ∧
        built =
          { Method := outboundMethod method,
            URL := { u with Host := net.removeEmptyPort u.Host },
            Body := body, Header := [] } := by
  unfold NewRequest at h
  simp only at h
  by_cases hv : net.validMethod (if method = "" then "GET" else method) = true
  · simp only [hv, Bool.not_true, Bool.false_eq_true, if_false] at h
    cases hu : net.urlParse url with
    | none => simp [hu] at h
    | some u =>
      simp only [hu, Option.some.injEq] at h
      exact ⟨hv, u, rfl, h.symm⟩
  · simp [hv] at h

/-- The two header loops on a request whose header map is empty. -/
theorem fillHeaders_eq (canon : String → String) (route : Route) (req : Request)
    (proxyReq : ProxyRequest) (h : proxyReq.Header = []) :
    fillHeaders canon route req proxyReq =
      { proxyReq with Header := proxyHeader canon route req } := by
  unfold fillHeaders proxyHeader
  rw [h]
  cases route.Headers <;> rfl

/-- The request handed to `client.Do` is the built request with the merged
header map. -/
theorem fillHeaders_built (net : Net) (route : Route) (ctx : Context) (url : String)
    (built : ProxyRequest)
    (hnew : NewRequest net ctx.Request.Method url ctx.Request.Body = some built) :
    fillHeaders net.canonicalKey route ctx.Request built = outbound net route ctx built := by
  obtain ⟨_, u, _, hb⟩ := NewRequest_some net _ _ _ built hnew
  rw [fillHeaders_eq net.canonicalKey route ctx.Request built (by rw [hb])]
  rfl

theorem handler_parse_fails (net : Net) (route : Route) (ctx : Context)
    (hparse : net.urlParse route.Target = none) :
    createProxyHandler net route ctx =
      ctx.JSON 500 [("error", "invalid target URL")] := by
  unfold createProxyHandler
  simp only [hparse]
  rfl

theorem handler_request_fails (net : Net) (route : Route) (ctx : Context) (targetURL : URL)
    (hparse : net.urlParse route.Target = some targetURL)
    (hnew : NewRequest net ctx.Request.Method (proxyURL targetURL ctx.Request)
      ctx.Request.Body = none) :
    createProxyHandler net route ctx =
      ctx.JSON 500 [("error", "failed to create proxy request")] := by
  unfold createProxyHandler
  simp only [hparse, hnew]
  rfl

theorem handler_do_fails (net : Net) (route : Route) (ctx : Context) (targetURL : URL)
    (built : ProxyRequest)
    (hparse : net.urlParse route.Target = some targetURL)
    (hnew : NewRequest net ctx.Request.Method (proxyURL targetURL ctx.Request)
      ctx.Request.Body = some built)
    (hdo : net.clientDo (outbound net route ctx built) = none) :
    createProxyHandler net route ctx =
      { ctx with
        sent := ctx.sent ++ [outbound net route ctx built],
        calls := ctx.calls ++ [.JSON 502 [("error", "failed to proxy request")]] } := by
  unfold createProxyHandler
  simp only [hparse, hnew, fillHeaders_built net route ctx _ built hnew, hdo]
  rfl

theorem handler_read_fails (net : Net) (route : Route) (ctx : Context) (targetURL : URL)
    (built : ProxyRequest) (resp : Response)
    (hparse : net.urlParse route.Target = some targetURL)
    (hnew : NewRequest net ctx.Request.Method (proxyURL targetURL ctx.Request)
      ctx.Request.Body = some built)
    (hdo : net.clientDo (outbound net route ctx built) = some resp)
    (hbody : resp.Body = none) :
    createProxyHandler net route ctx =
      { ctx with
        sent := ctx.sent ++ [outbound net route ctx built],
        responseHeader := copyHeader net.canonicalKey resp.Header ctx.responseHeader,
        calls := ctx.calls ++ [.JSON 500 [("error", "failed to read response")]] } := by
  unfold createProxyHandler
  simp only [hparse, hnew, fillHeaders_built net route ctx _ built hnew, hdo, hbody]
  rfl

theorem handler_relays (net : Net) (route : Route) (ctx : Context) (targetURL : URL)
    (built : ProxyRequest) (resp : Response) (body : List Nat)
    (hparse : net.urlParse route.Target = some targetURL)
    (hnew : NewRequest net ctx.Request.Method (proxyURL targetURL ctx.Request)
      ctx.Request.Body = some built)
    (hdo : net.clientDo (outbound net route ctx built) = some resp)
    (hbody : resp.Body = some body) :
    createProxyHandler net route ctx =
      { ctx with
        sent := ctx.sent ++ [outbound net route ctx built],
        responseHeader := copyHeader net.canonicalKey resp.Header ctx.responseHeader,
        calls := ctx.calls ++ [.WriteHeader resp.StatusCode, .Write body] } := by
  unfold createProxyHandler
  simp only [hparse, hnew, fillHeaders_built net route ctx _ built hnew, hdo, hbody]

/-- Once `http.NewRequest` has built a request, the handler hands exactly that
request, with the merged header map, to `client.Do`. -/
theorem handler_sent_built (net : Net) (route : Route) (ctx : Context) (targetURL : URL)
    (built : ProxyRequest)
    (hparse : net.urlParse route.Target = some targetURL)
    (hnew : NewRequest net ctx.Request.Method (proxyURL targetURL ctx.Request)
      ctx.Request.Body = some built) :
    (createProxyHandler net route ctx).sent = ctx.sent ++ [outbound net route ctx built] := by
  cases hdo : net.clientDo (outbound net route ctx built) with
  | none => rw [handler_do_fails net route ctx targetURL built hparse hnew hdo]
  | some resp =>
    cases hb : resp.Body with
    | none => rw [handler_read_fails net route ctx targetURL built resp hparse hnew hdo hb]
    | some body =>
      rw [handler_relays net route ctx targetURL built resp body hparse hnew hdo hb]

/-- The handler hands `client.Do` nothing or one request. -/
theorem handler_sent_cases (net : Net) (route : Route) (ctx : Context) :
    (createProxyHandler net route ctx).sent = ctx.sent ∨
      ∃ targetURL built,
        net.urlParse route.Target = some targetURL ∧
        NewRequest net ctx.Request.Method (proxyURL targetURL ctx.Request)
          ctx.Request.Body = some built ∧
        (createProxyHandler net route ctx).sent =
          ctx.sent ++ [outbound net route ctx built] := by
  cases hparse : net.urlParse route.Target with
  | none =>
    left
    rw [handler_parse_fails net route ctx hparse]
    rfl
  | some targetURL =>
    cases hnew : NewRequest net ctx.Request.Method (proxyURL targetURL ctx.Request)
        ctx.Request.Body with
    | none =>
      left
      rw [handler_request_fails net route ctx targetURL hparse hnew]
      rfl
    | some built =>
      right
      exact ⟨targetURL, built, rfl, hnew,
        handler_sent_built net route ctx targetURL built hparse hnew⟩

/-- C8, amended: once the target has parsed and `http.NewRequest` has built the
outbound request, the handler hands `client.Do` exactly one request, and its
header map is as follows.
* Under the canonical form of every key of the route's static map it holds
  exactly one value, and that value is configured in the static map under a
  key of the same canonical form; when no two static keys share a canonical
  form it is the value configured under that very key.  Inbound values of that
  name are gone.
* Under every name no static key canonicalises to, it holds the inbound values
  of that name, in inbound order; when no two inbound keys share a canonical
  form these are the values of the one inbound key.
* Under a name that neither a static key nor an inbound key canonicalises to,
  it holds nothing. -/
theorem proxy_header_static_replaces_inbound (net : Net) (route : Route) (ctx : Context)
    (targetURL : URL) (built : ProxyRequest)
    (hparse : net.urlParse route.Target = some targetURL)
    (hnew : NewRequest net ctx.Request.Method (proxyURL targetURL ctx.Request)
      ctx.Request.Body = some built) :
    ∃ preq, (createProxyHandler net route ctx).sent = ctx.sent ++ [preq] ∧
      (∀ k v, (k, v) ∈ route.Headers.getD [] →
        ∃ k' v', (k', v') ∈ route.Headers.getD [] ∧
          net.canonicalKey k' = net.canonicalKey k ∧
          preq.Header.get (net.canonicalKey k) = some [v']) ∧
      (((route.Headers.getD []).map fun kv => net.canonicalKey kv.1).Nodup →
        ∀ k v, (k, v) ∈ route.Headers.getD [] →
          preq.Header.get (net.canonicalKey k) = some [v]) ∧
      (∀ n, (∀ kv ∈ route.Headers.getD [], net.canonicalKey kv.1 ≠ n) →
        preq.Header.Values n = valuesUnder net.canonicalKey ctx.Request.Header n) ∧
      ((ctx.Request.Header.map fun kv => net.canonicalKey kv.1).Nodup →
        ∀ k vs, (k, vs) ∈ ctx.Request.Header →
          (∀ kv ∈ route.Headers.getD [], net.canonicalKey kv.1 ≠ net.canonicalKey k) →
          preq.Header.Values (net.canonicalKey k) = vs) ∧
      (∀ n, (∀ kv ∈ route.Headers.getD [], net.canonicalKey kv.1 ≠ n) →
        (∀ kv ∈ ctx.Request.Header, net.canonicalKey kv.1 ≠ n) →
        preq.Header.get n = none) := by
  refine ⟨outbound net route ctx built,
    handler_sent_built net route ctx targetURL built hparse hnew, ?_⟩
  have hhead : (outbound net route ctx built).Header =
      proxyHeader net.canonicalKey route ctx.Request := rfl
  rw [hhead]
  have other : ∀ n, (∀ kv ∈ route.Headers.getD [], net.canonicalKey kv.1 ≠ n) →
      (proxyHeader net.canonicalKey route ctx.Request).Values n =
        valuesUnder net.canonicalKey ctx.Request.Header n := by
    intro n hn
    unfold Header.Values
    rw [proxyHeader_get, staticValue_none net.canonicalKey _ n hn]
    by_cases hv : valuesUnder net.canonicalKey ctx.Request.Header n = [] <;> simp [hv]
  refine ⟨?_, ?_, other, ?_, ?_⟩
  · intro k v hmem
    obtain ⟨v', hv'⟩ := staticValue_of_mem net.canonicalKey _ k v hmem
    obtain ⟨k', hk', hc⟩ := staticValue_mem net.canonicalKey _ _ v' hv'
    exact ⟨k', v', hk', hc, by rw [proxyHeader_get, hv']⟩
  · intro hnd k v hmem
    rw [proxyHeader_get, staticValue_nodup net.canonicalKey _ k v hnd hmem]
  · intro hnd k vs hmem hn
    rw [other (net.canonicalKey k) hn, valuesUnder_nodup net.canonicalKey _ k vs hnd hmem]
  · intro n hn hin
    rw [proxyHeader_get, staticValue_none net.canonicalKey _ n hn,
      valuesUnder_none net.canonicalKey _ n hin]
    simp

/-- C10: the five outcomes of the handler, by the first step that fails.
* The target does not parse: one `JSON 500` call with an `error` entry, nothing
  handed to `client.Do`.
* `http.NewRequest` fails: one `JSON 500` call, nothing handed to `client.Do`.
* `client.Do` fails: the request was handed over, one `JSON 502` call with an
  `error` entry.
* Reading the body fails: one `JSON 500` call.
* Otherwise: `WriteHeader` with the backend's status code, then `Write` with
  the backend's body.
In the last two cases every value of every backend header has been added to
the response header map, after the values it already held. -/
theorem proxy_handler_outcomes (net : Net) (route : Route) (ctx : Context) :
    (net.urlParse route.Target = none →
        (createProxyHandler net route ctx).calls =
            ctx.calls ++ [.JSON 500 [("error", "invalid target URL")]] ∧
          (createProxyHandler net route ctx).sent = ctx.sent ∧
          (createProxyHandler net route ctx).responseHeader = ctx.responseHeader) ∧
      ∀ targetURL, net.urlParse route.Target = some targetURL →
        (NewRequest net ctx.Request.Method (proxyURL targetURL ctx.Request)
            ctx.Request.Body = none →
          (createProxyHandler net route ctx).calls =
              ctx.calls ++ [.JSON 500 [("error", "failed to create proxy request")]] ∧
            (createProxyHandler net route ctx).sent = ctx.sent ∧
            (createProxyHandler net route ctx).responseHeader = ctx.responseHeader) ∧
        (∀ built, NewRequest net ctx.Request.Method (proxyURL targetURL ctx.Request)
            ctx.Request.Body = some built →
          (createProxyHandler net route ctx).sent =
              ctx.sent ++ [outbound net route ctx built] ∧
            (net.clientDo (outbound net route ctx built) = none →
              (createProxyHandler net route ctx).calls =
                  ctx.calls ++ [.JSON 502 [("error", "failed to proxy request")]] ∧
                (createProxyHandler net route ctx).responseHeader = ctx.responseHeader) ∧
            ∀ resp, net.clientDo (outbound net route ctx built) = some resp →
              (∀ n, (createProxyHandler net route ctx).responseHeader.Values n =
                ctx.responseHeader.Values n ++ valuesUnder net.canonicalKey resp.Header n) ∧
              (resp.Body = none →
                (createProxyHandler net route ctx).calls =
                  ctx.calls ++ [.JSON 500 [("error", "failed to read response")]]) ∧
              ∀ body, resp.Body = some body →
                (createProxyHandler net route ctx).calls =
                  ctx.calls ++ [.WriteHeader resp.StatusCode, .Write body]) := by
  refine ⟨fun hparse => ?_, fun targetURL hparse => ⟨fun hnew => ?_, fun built hnew => ?_⟩⟩
  · rw [handler_parse_fails net route ctx hparse]
    exact ⟨rfl, rfl, rfl⟩
  · rw [handler_request_fails net route ctx targetURL hparse hnew]
    exact ⟨rfl, rfl, rfl⟩
  · cases hdo : net.clientDo (outbound net route ctx built) with
    | none =>
      rw [handler_do_fails net route ctx targetURL built hparse hnew hdo]
      refine ⟨rfl, fun _ => ⟨rfl, rfl⟩, ?_⟩
      intro resp h
      cases h
    | some resp =>
      cases hb : resp.Body with
      | none =>
        rw [handler_read_fails net route ctx targetURL built resp hparse hnew hdo hb]
        refine ⟨rfl, ?_, ?_⟩
        · intro h
          cases h
        · intro resp' h
          cases h
          refine ⟨fun n => copyHeader_Values _ _ _ n, fun _ => rfl, ?_⟩
          intro body h
          rw [hb] at h
          cases h
      | some body =>
        rw [handler_relays net route ctx targetURL built resp body hparse hnew hdo hb]
        refine ⟨rfl, ?_, ?_⟩
        · intro h
          cases h
        · intro resp' h
          cases h
          refine ⟨fun n => copyHeader_Values _ _ _ n, ?_, ?_⟩
          · intro h
            rw [hb] at h
            cases h
          · intro body' h
            rw [hb] at h
            cases h
            rfl

/-! ## Concrete runs of the proxy handler -/

/-- C8 as stated fails: the static map `{"x-gw": "1", "X-Gw": "2"}`, which
`compileRoute` makes of a route header `x-gw` and a domain header `X-Gw`.
Visited in this order the outbound request carries `2` under the canonical
name of the route's key `x-gw`, not the `1` configured for it; visited in the
other order it carries `1` under the canonical name of `X-Gw`, not `2`. -/
theorem proxy_header_colliding_static_keys_counterexample :
    compileRoute collidingConfig { pingRoute with Headers := some [("x-gw", "1")] } =
        collidingRoute ∧
      ("x-gw", "1") ∈ collidingRoute.Headers.getD [] ∧
      ((createProxyHandler sampleNet collidingRoute pingContext).sent.map fun r =>
          r.Header.get (sampleCanonicalKey "x-gw")) = [some ["2"]] ∧
      ("X-Gw", "2") ∈ collidingRouteReversed.Headers.getD [] ∧
      ((createProxyHandler sampleNet collidingRouteReversed pingContext).sent.map fun r =>
          r.Header.get (sampleCanonicalKey "X-Gw")) = [some ["1"]] := by
  decide

/-- C8, amended, at a concrete input: the route sets `x-gw`, the inbound request
carries `X-Gw` and a two-valued `Accept`. -/
theorem proxy_header_static_replaces_inbound_witness :
    ((createProxyHandler sampleNet pingRoute pingContext).sent.map fun r => r.Header) =
        [[("Accept", ["text/html", "text/plain"]), ("X-Gw", ["1"])]] ∧
      ∃ preq, (createProxyHandler sampleNet pingRoute pingContext).sent =
          pingContext.sent ++ [preq] ∧
        preq.Header.get (sampleNet.canonicalKey "x-gw") = some ["1"] :=
  ⟨by decide,
    match proxy_header_static_replaces_inbound sampleNet pingRoute pingContext
        { Scheme := "http", Host := "backend", Path := "/healthz", RawQuery := "" }
        { Method := "GET",
          URL := { Scheme := "http", Host := "backend", Path := "/healthz", RawQuery := "a=1" },
          Body := [], Header := [] }
        (by decide) (by decide) with
    | ⟨preq, hsent, _, hdistinct, _⟩ =>
      ⟨preq, hsent, hdistinct (by decide) "x-gw" "1" (by decide)⟩⟩

/-- C10 at concrete inputs: a target that does not parse, and a relayed
backend response. -/
theorem proxy_handler_outcomes_witness :
    ((createProxyHandler sampleNet { pingRoute with Target := "::" } pingContext).calls =
          pingContext.calls ++ [.JSON 500 [("error", "invalid target URL")]] ∧
        (createProxyHandler sampleNet { pingRoute with Target := "::" } pingContext).sent =
          pingContext.sent ∧
        (createProxyHandler sampleNet { pingRoute with Target := "::" } pingContext).responseHeader =
          pingContext.responseHeader) ∧
      (createProxyHandler sampleNet pingRoute pingContext).calls =
        [.WriteHeader 200, .Write [111, 107, 10]] ∧
      (createProxyHandler sampleNet pingRoute pingContext).responseHeader =
        [("Content-Type", ["text/plain"])] :=
  ⟨(proxy_handler_outcomes sampleNet { pingRoute with Target := "::" } pingContext).1
      (by decide),
    by decide, by decide⟩

/-! ## Compile: the manifest as a whole -/

/-- What loading the global config leaves in the manifest. -/
theorem loadGlobal_ok (c : Compiler) (fs : FileSystem) (compiled result : CompiledRoutes)
    (h : (if c.globalFile ≠ "" then c.loadGlobalConfig fs compiled else .ok compiled) =
      .ok result) :
    result.Routes = compiled.Routes ∧
      result.Middlewares =
        (if c.globalFile = "" then compiled.Middlewares
         else
          match fs.globalFile with
          | .parsed global =>
            match global.Middlewares with
            | some mws => some mws
            | none => compiled.Middlewares
          | _ => compiled.Middlewares) := by
  by_cases hg : c.globalFile = ""
  · simp only [hg, ne_eq, not_true_eq_false, if_false, if_true] at h ⊢
    cases h
    exact ⟨rfl, rfl⟩
  · simp only [ne_eq, hg, not_false_eq_true, if_true, if_false] at h ⊢
    unfold Compiler.loadGlobalConfig at h
    cases hf : fs.globalFile with
    | notExist =>
      simp only [hf] at h
      cases h
      exact ⟨rfl, rfl⟩
    | unreadable => simp [hf] at h
    | malformed => simp [hf] at h
    | parsed global =>
      simp only [hf] at h
      cases hm : global.Middlewares with
      | none =>
        simp only [hm] at h ⊢
        cases h
        exact ⟨rfl, rfl⟩
      | some mws =>
        simp only [hm] at h ⊢
        cases h
        exact ⟨rfl, rfl⟩

/-- A global file that is configured and cannot be read or parsed stops `Compile`
before any call that changes the file system. -/
theorem Compile_global_fails (c : Compiler) (fs : FileSystem) (hg : c.globalFile ≠ "")
    (hbad : fs.globalFile = .malformed ∨ fs.globalFile = .unreadable) :
    c.Compile fs = (.error .loadGlobalConfig, []) := by
  rcases hbad with h | h <;>
    simp [Compiler.Compile, Compiler.loadGlobalConfig, hg, h]

/-- The steps behind a manifest that `Compile` hands to `os.WriteFile`. -/
theorem Compile_written_steps (c : Compiler) (fs : FileSystem) (dir name : String)
    (m : CompiledRoutes) (hw : FsOp.writeFile dir name m ∈ (c.Compile fs).2) :
    ∃ compiled files,
      (if c.globalFile ≠ "" then
          c.loadGlobalConfig fs
            { Middlewares := some { OnRequest := [], OnResponse := [] }, Routes := [] }
        else .ok { Middlewares := some { OnRequest := [], OnResponse := [] }, Routes := [] }) =
        .ok compiled ∧
      fs.readDir = some files ∧ compileFiles files compiled = .ok m := by
  unfold Compiler.Compile at hw
  simp only at hw
  split at hw
  · simp at hw
  · rename_i loaded compiled hl
    cases hd : fs.readDir with
    | none => simp [hd] at hw
    | some files =>
      simp only [hd] at hw
      split at hw
      · simp at hw
      · rename_i result hr
        refine ⟨compiled, files, hl, rfl, ?_⟩
        split at hw
        · simp at hw
        · split at hw
          · simp at hw
            rw [hw.2.2]; exact hr
          · simp at hw
            rw [hw.2.2]; exact hr

/-- The steps behind a `Compile` that returns no error. -/
theorem Compile_ok_steps (c : Compiler) (fs : FileSystem) (h : (c.Compile fs).1 = .ok ()) :
    ∃ m, (c.Compile fs).2 =
      [.mkdirAll c.outputDir, .writeFile c.outputDir "routes.json" m] := by
  unfold Compiler.Compile at h ⊢
  simp only at h ⊢
  split
  · rename_i hl
    simp [hl] at h
  · rename_i loaded compiled hl
    simp only [hl] at h
    cases hd : fs.readDir with
    | none => simp [hd] at h
    | some files =>
      simp only [hd] at h ⊢
      cases hr : compileFiles files compiled with
      | error e => simp [hr] at h
      | ok result =>
        simp only [hr] at h ⊢
        by_cases hmk : (!fs.mkdirAllOk) = true
        · simp [hmk] at h
        · by_cases hwr : (!fs.writeFileOk) = true
          · simp [hmk, hwr] at h
          · simp [hmk, hwr]

/-- Entries the file loop skips can be dropped from the listing. -/
theorem compileFiles_filter (files : List DirEntry) (compiled : CompiledRoutes) :
    compileFiles (files.filter accepted) compiled = compileFiles files compiled := by
  induction files generalizing compiled with
  | nil => rfl
  | cons file rest ih =>
    by_cases ha : accepted file = true
    · have hs : ¬ (file.IsDir || !hasSuffix file.Name ".json") = true := by
        simp only [accepted, Bool.and_eq_true, Bool.not_eq_true'] at ha
        simp [ha.1, ha.2]
      rw [List.filter_cons_of_pos ha]
      unfold compileFiles
      rw [if_neg hs, if_neg hs]
      cases file.data <;> simp [ih]
    · have hs : (file.IsDir || !hasSuffix file.Name ".json") = true := by
        simp only [accepted, Bool.and_eq_true, Bool.not_eq_true', not_and,
          Bool.not_eq_false] at ha
        cases hd : file.IsDir
        · simp [ha hd]
        · simp
      rw [List.filter_cons_of_neg ha, ih]
      conv => rhs; unfold compileFiles
      rw [if_pos hs]

/-- When the file loop succeeds, every entry it did not skip has parsed. -/
theorem compileFiles_ok_parsed (files : List DirEntry) (compiled result : CompiledRoutes)
    (h : compileFiles files compiled = .ok result) (file : DirEntry) (hmem : file ∈ files)
    (hacc : accepted file = true) : ∃ config, file.data = .parsed config := by
  cases hd : file.data with
  | parsed config => exact ⟨config, rfl⟩
  | notExist =>
    obtain ⟨e, he⟩ := compileFiles_error files compiled file hmem hacc (by simp [hd])
    rw [he] at h; cases h
  | unreadable =>
    obtain ⟨e, he⟩ := compileFiles_error files compiled file hmem hacc (by simp [hd])
    rw [he] at h; cases h
  | malformed =>
    obtain ⟨e, he⟩ := compileFiles_error files compiled file hmem hacc (by simp [hd])
    rw [he] at h; cases h

theorem compileRoute_Method_Target (config : RouteConfig) (route : Route) :
    (compileRoute config route).Method = route.Method ∧
      (compileRoute config route).Target = route.Target := by
  simp only [compileRoute]
  split_ifs <;> exact ⟨rfl, rfl⟩

theorem length_flatMap_sum {α β : Type} (l : List α) (f : α → List β) :
    (l.flatMap f).length = (l.map fun a => (f a).length).sum := by
  induction l with
  | nil => rfl
  | cons a rest ih => simp [List.flatMap_cons, ih]

/-- The manifest after the global config has loaded. -/
theorem loadGlobal_selector (c : Compiler) (fs : FileSystem) (compiled : CompiledRoutes)
    (h : (if c.globalFile ≠ "" then
          c.loadGlobalConfig fs
            { Middlewares := some { OnRequest := [], OnResponse := [] }, Routes := [] }
        else .ok { Middlewares := some { OnRequest := [], OnResponse := [] }, Routes := [] }) =
        .ok compiled) :
    compiled = { Middlewares := some (globalSelector c fs), Routes := [] } := by
  obtain ⟨hr, hm⟩ := loadGlobal_ok c fs _ compiled h
  have hsel : compiled.Middlewares = some (globalSelector c fs) := by
    rw [hm]
    unfold globalSelector emptySelector
    by_cases hg : c.globalFile = ""
    · simp [hg]
    · simp only [hg, if_false]
      cases fs.globalFile with
      | parsed global =>
        simp only
        cases global.Middlewares <;> rfl
      | notExist => rfl
      | unreadable => rfl
      | malformed => rfl
  cases compiled
  simp_all

/-- Loading the global config succeeds when `globalLoads` holds. -/
theorem loadGlobal_loads (c : Compiler) (fs : FileSystem) (h : globalLoads c fs) :
    (if c.globalFile ≠ "" then
        c.loadGlobalConfig fs
          { Middlewares := some { OnRequest := [], OnResponse := [] }, Routes := [] }
      else .ok { Middlewares := some { OnRequest := [], OnResponse := [] }, Routes := [] }) =
      .ok { Middlewares := some (globalSelector c fs), Routes := [] } := by
  have key : ∃ compiled, (if c.globalFile ≠ "" then
        c.loadGlobalConfig fs
          { Middlewares := some { OnRequest := [], OnResponse := [] }, Routes := [] }
      else .ok { Middlewares := some { OnRequest := [], OnResponse := [] }, Routes := [] }) =
      .ok compiled := by
    by_cases hg : c.globalFile = ""
    · exact ⟨⟨some ⟨[], []⟩, []⟩, by simp [hg]⟩
    · rcases h with h | h | ⟨global, h⟩
      · exact absurd h hg
      · exact ⟨⟨some ⟨[], []⟩, []⟩, by simp [hg, Compiler.loadGlobalConfig, h]⟩
      · cases hm : global.Middlewares with
        | none =>
          exact ⟨⟨some ⟨[], []⟩, []⟩, by simp [hg, Compiler.loadGlobalConfig, h, hm]⟩
        | some mws =>
          exact ⟨⟨some mws, []⟩, by simp [hg, Compiler.loadGlobalConfig, h, hm]⟩
  obtain ⟨compiled, hc⟩ := key
  rw [hc, loadGlobal_selector c fs compiled hc]

/-- The file loop succeeds when every entry it does not skip parses. -/
theorem compileFiles_all_parsed (files : List DirEntry) (compiled : CompiledRoutes)
    (h : ∀ f ∈ files, accepted f = true → ∃ config, f.data = .parsed config) :
    compileFiles files compiled =
      .ok { compiled with
            Routes := compiled.Routes ++
              (domainConfigs files).flatMap fun config =>
                config.Routes.map (compileRoute config) } := by
  have key : ∃ result, compileFiles files compiled = .ok result := by
    induction files generalizing compiled with
    | nil => exact ⟨_, rfl⟩
    | cons file rest ih =>
      have hrest : ∀ f ∈ rest, accepted f = true → ∃ config, f.data = .parsed config :=
        fun f hf => h f (List.mem_cons_of_mem _ hf)
      unfold compileFiles
      by_cases hs : (file.IsDir || !hasSuffix file.Name ".json") = true
      · rw [if_pos hs]
        exact ih compiled hrest
      · rw [if_neg hs]
        have ha : accepted file = true := by
          simp only [accepted]
          simp only [Bool.or_eq_true, Bool.not_eq_true', not_or, Bool.not_eq_true,
            Bool.not_eq_false] at hs
          simp [hs.1, hs.2]
        obtain ⟨config, hc⟩ := h file (List.mem_cons_self _ _) ha
        simp only [hc]
        exact ih _ hrest
  obtain ⟨result, hr⟩ := key
  rw [hr, compileFiles_ok files compiled result hr]

/-- The run of `Compile` on a world where nothing fails. -/
theorem Compile_succeeds (c : Compiler) (fs : FileSystem) (files : List DirEntry)
    (hglobal : globalLoads c fs) (hdir : fs.readDir = some files)
    (hparsed : ∀ f ∈ files, accepted f = true → ∃ config, f.data = .parsed config)
    (hmk : fs.mkdirAllOk = true) (hwr : fs.writeFileOk = true) :
    c.Compile fs =
      (.ok (),
        [.mkdirAll c.outputDir,
         .writeFile c.outputDir "routes.json"
           { Middlewares := some (globalSelector c fs),
             Routes := (domainConfigs files).flatMap fun config =>
               config.Routes.map (compileRoute config) }]) := by
  unfold Compiler.Compile
  simp only [loadGlobal_loads c fs hglobal, hdir, compileFiles_all_parsed files _ hparsed,
    hmk, hwr]
  simp

/-- Dropping the skipped entries from the listing does not change the run. -/
theorem Compile_filter (c : Compiler) (fs : FileSystem) (files : List DirEntry)
    (hdir : fs.readDir = some files) :
    c.Compile { fs with readDir := some (files.filter accepted) } = c.Compile fs := by
  simp only [Compiler.Compile, Compiler.loadGlobalConfig, hdir, compileFiles_filter]

theorem domainConfigs_none_accepted (files : List DirEntry)
    (h : ∀ f ∈ files, accepted f = false) : domainConfigs files = [] := by
  unfold domainConfigs
  rw [List.filterMap_eq_nil_iff]
  intro f hf
  simp [h f hf]

theorem domainConfigs_listing (files : List DirEntry)
    (h : ∀ f ∈ files, accepted f = true → ∃ config, f.data = .parsed config) :
    (files.filter accepted).map (fun f => f.data) =
      (domainConfigs files).map fun config => FileData.parsed config := by
  induction files with
  | nil => rfl
  | cons file rest ih =>
    have hrest := ih (fun f hf => h f (List.mem_cons_of_mem _ hf))
    by_cases ha : accepted file = true
    · obtain ⟨config, hc⟩ := h file (List.mem_cons_self _ _) ha
      rw [List.filter_cons_of_pos ha, List.map_cons, hrest]
      simp [domainConfigs, List.filterMap_cons, ha, hc]
    · rw [List.filter_cons_of_neg ha, hrest]
      simp [domainConfigs, List.filterMap_cons, ha]

/-! ## The manifest selector and the manifest routes -/

/-- C11: whatever manifest `Compile` writes, for whatever domain directory,
its selector is `globalSelector`: the global config's selector when a global
file is configured, parses and defines one, and the empty selector when none
is configured, the file does not exist, or it parses without a selector.  A
configured global file that is malformed makes `Compile` fail without any call
that changes the file system.  When the global config loads, every accepted
domain file parses and both writes succeed, `Compile` writes a manifest with
that selector; for an empty directory the manifest has no routes. -/
theorem compile_global_selector_from_global_config (c : Compiler) (fs : FileSystem) :
    (∀ dir name m, FsOp.writeFile dir name m ∈ (c.Compile fs).2 →
        m.Middlewares = some (globalSelector c fs)) ∧
      (∀ global mws, c.globalFile ≠ "" → fs.globalFile = .parsed global →
        global.Middlewares = some mws → globalSelector c fs = mws) ∧
      (c.globalFile = "" → globalSelector c fs = emptySelector) ∧
      (fs.globalFile = .notExist → globalSelector c fs = emptySelector) ∧
      (∀ global, fs.globalFile = .parsed global → global.Middlewares = none →
        globalSelector c fs = emptySelector) ∧
      (c.globalFile ≠ "" → fs.globalFile = .malformed →
        (∃ e, (c.Compile fs).1 = .error e) ∧ (c.Compile fs).2 = []) ∧
      (∀ files, globalLoads c fs → fs.readDir = some files →
        (∀ f ∈ files, accepted f = true → ∃ config, f.data = .parsed config) →
        fs.mkdirAllOk = true → fs.writeFileOk = true →
        ∃ routes, c.Compile fs =
          (.ok (),
            [.mkdirAll c.outputDir,
             .writeFile c.outputDir "routes.json"
               { Middlewares := some (globalSelector c fs), Routes := routes }])) ∧
      (globalLoads c fs → fs.readDir = some [] →
        fs.mkdirAllOk = true → fs.writeFileOk = true →
        c.Compile fs =
          (.ok (),
            [.mkdirAll c.outputDir,
             .writeFile c.outputDir "routes.json"
               { Middlewares := some (globalSelector c fs), Routes := [] }])) := by
  refine ⟨?_, ?_, ?_, ?_, ?_, ?_, ?_, ?_⟩
  · intro dir name m hw
    obtain ⟨compiled, files, hl, _, hcf⟩ := Compile_written_steps c fs dir name m hw
    rw [compileFiles_ok files compiled m hcf, loadGlobal_selector c fs compiled hl]
  · intro global mws hg hf hm
    simp [globalSelector, hg, hf, hm]
  · intro hg
    simp [globalSelector, hg]
  · intro hf
    simp [globalSelector, hf]
  · intro global hf hm
    simp [globalSelector, hf, hm]
  · intro hg hf
    rw [Compile_global_fails c fs hg (Or.inl hf)]
    exact ⟨⟨_, rfl⟩, rfl⟩
  · intro files hglobal hdir hparsed hmk hwr
    exact ⟨_, Compile_succeeds c fs files hglobal hdir hparsed hmk hwr⟩
  · intro hglobal hdir hmk hwr
    have := Compile_succeeds c fs [] hglobal hdir (fun f hf => by cases hf) hmk hwr
    rw [this]
    rfl

/-- C14: when `Compile` returns no error on a listing, it has written one
manifest, every entry of the listing that is not a directory and whose name
ends in `.json` has parsed, and the manifest's routes are the routes of these
files, file by file in listing order and route by route in file order, each
passed through `compileRoute`, which keeps `Method` and `Target`.  So there are
as many compiled routes as the files hold routes, and none when no entry is
accepted.  The other entries of the listing can be dropped without changing
the run. -/
theorem compile_routes_flatten_accepted_files (c : Compiler) (fs : FileSystem)
    (files : List DirEntry) (hdir : fs.readDir = some files)
    (hok : (c.Compile fs).1 = .ok ()) :
    ∃ m, (c.Compile fs).2 =
        [.mkdirAll c.outputDir, .writeFile c.outputDir "routes.json" m] ∧
      (∀ f ∈ files, accepted f = true → ∃ config, f.data = .parsed config) ∧
      ((files.filter accepted).map (fun f => f.data) =
        (domainConfigs files).map fun config => FileData.parsed config) ∧
      m.Routes =
        ((domainConfigs files).flatMap fun config =>
          config.Routes.map (compileRoute config)) ∧
      m.Routes.map (fun r => (r.Method, r.Target)) =
        ((domainConfigs files).flatMap fun config =>
          config.Routes.map fun r => (r.Method, r.Target)) ∧
      m.Routes.length = ((domainConfigs files).map fun config => config.Routes.length).sum ∧
      ((∀ f ∈ files, accepted f = false) → m.Routes = []) ∧
      c.Compile { fs with readDir := some (files.filter accepted) } = c.Compile fs := by
  obtain ⟨m, hm⟩ := Compile_ok_steps c fs hok
  have hw : FsOp.writeFile c.outputDir "routes.json" m ∈ (c.Compile fs).2 := by
    rw [hm]; simp
  obtain ⟨compiled, files', _, hd, hcf⟩ := Compile_written_steps c fs _ _ m hw
  have hfiles : files' = files := by
    rw [hdir] at hd
    exact (Option.some.inj hd).symm
  subst hfiles
  have hparsed := compileFiles_ok_parsed files' compiled m hcf
  have hroutes := Compile_written c fs files' _ _ m hdir hw
  refine ⟨m, hm, hparsed, domainConfigs_listing files' hparsed, hroutes, ?_, ?_, ?_,
    Compile_filter c fs files' hdir⟩
  · rw [hroutes, List.map_flatMap]
    congr 1
    funext config
    simp [(compileRoute_Method_Target config _).1, (compileRoute_Method_Target config _).2]
  · rw [hroutes, length_flatMap_sum]
    simp
  · intro hnone
    rw [hroutes, domainConfigs_none_accepted files' hnone]
    rfl

/-- C11 at a concrete input: an empty directory and a global config with a
selector. -/
theorem compile_global_selector_from_global_config_witness :
    sampleCompiler.Compile emptyDirFS =
        (.ok (),
          [.mkdirAll "build",
           .writeFile "build" "routes.json"
             { Middlewares := some { OnRequest := ["logger"], OnResponse := ["timer"] },
               Routes := [] }]) ∧
      sampleCompiler.Compile emptyDirFS =
        (.ok (),
          [.mkdirAll sampleCompiler.outputDir,
           .writeFile sampleCompiler.outputDir "routes.json"
             { Middlewares := some (globalSelector sampleCompiler emptyDirFS), Routes := [] }]) :=
  ⟨rfl,
    (compile_global_selector_from_global_config sampleCompiler emptyDirFS).2.2.2.2.2.2.2
      (Or.inr (Or.inr ⟨_, rfl⟩)) rfl rfl rfl⟩

/-- C14 at a concrete input: two domain files with one and two routes, a text
file and a directory named like a domain file. -/
theorem compile_routes_flatten_accepted_files_witness :
    (sampleCompiler.Compile twoDomainFS).1 = .ok () ∧
      ∃ m, (sampleCompiler.Compile twoDomainFS).2 =
          [.mkdirAll sampleCompiler.outputDir,
           .writeFile sampleCompiler.outputDir "routes.json" m] ∧
        m.Routes.map (fun r => (r.Method, r.Target)) =
          [("GET", "http://users.internal/list"), ("post", "http://orders.internal/new"),
           ("DELETE", "http://orders.internal/drop")] ∧
        m.Routes.length = 3 :=
  ⟨rfl,
    match compile_routes_flatten_accepted_files sampleCompiler twoDomainFS twoDomainFiles
        rfl rfl with
    | ⟨m, hops, _, _, _, hmt, hlen, _, _⟩ =>
      ⟨m, hops, by rw [hmt]; decide, by rw [hlen]; decide⟩⟩

/-! ## Loading the registry into a manager -/

section Registry

variable {H : Type}

theorem GoMap.set_fresh {V : Type} (m : GoMap V) (k : String) (v : V)
    (h : m.get k = none) : m.set k v = m ++ [(k, v)] := by
  induction m with
  | nil => rfl
  | cons e rest ih =>
    obtain ⟨k', v'⟩ := e
    by_cases hk : k' = k
    · simp [GoMap.get, hk] at h
    · simp only [GoMap.get, hk, if_false] at h
      simp [GoMap.set, hk, ih h]

theorem GoMap.get_map {V W : Type} (m : GoMap V) (f : V → W) (n : String) :
    GoMap.get (m.map fun kv => (kv.1, f kv.2)) n = (m.get n).map f := by
  induction m with
  | nil => rfl
  | cons e rest ih =>
    obtain ⟨k, v⟩ := e
    by_cases hk : k = n <;> simp [GoMap.get, hk, ih]

/-- Registering the instances of agreeing, distinctly named constructors adds
one entry per constructor, under the constructor's name. -/
theorem register_fold_fresh (factories : GoMap (Unit → Middleware H))
    (acc : GoMap (Middleware H)) (hagree : namesAgree factories)
    (hkeys : (factories.map fun kv => kv.1).Nodup)
    (hfresh : ∀ kv ∈ factories, acc.get kv.1 = none) :
    factories.foldl (fun acc kv => acc.set (kv.2 ()).Name (kv.2 ())) acc =
      acc ++ factories.map fun kv => (kv.1, kv.2 ()) := by
  induction factories generalizing acc with
  | nil => simp
  | cons e rest ih =>
    rw [List.map_cons, List.nodup_cons] at hkeys
    have hname : (e.2 ()).Name = e.1 := hagree e (List.mem_cons_self _ _)
    have hset : acc.set (e.2 ()).Name (e.2 ()) = acc ++ [(e.1, e.2 ())] := by
      rw [hname]
      exact GoMap.set_fresh acc e.1 _ (hfresh e (List.mem_cons_self _ _))
    rw [List.foldl_cons, hset,
      ih _ (fun kv hkv => hagree kv (List.mem_cons_of_mem _ hkv)) hkeys.2]
    · simp
    · intro kv hkv
      rw [← GoMap.set_fresh acc e.1 (e.2 ()) (hfresh e (List.mem_cons_self _ _)),
        GoMap.get_set]
      have hne : e.1 ≠ kv.1 := by
        intro heq
        exact hkeys.1 (List.mem_map.mpr ⟨kv, hkv, heq.symm⟩)
      simp [hne, hfresh kv (List.mem_cons_of_mem _ hkv)]

theorem foldl_RegisterOnRequest (factories : GoMap (Unit → Middleware H)) (m : Manager H) :
    factories.foldl (fun m kv => m.RegisterOnRequest (kv.2 ())) m =
      { m with
        onRequestMiddlewares :=
          factories.foldl (fun acc kv => acc.set (kv.2 ()).Name (kv.2 ()))
            m.onRequestMiddlewares } := by
  induction factories generalizing m with
  | nil => rfl
  | cons e rest ih => rw [List.foldl_cons, ih]; rfl

theorem foldl_RegisterOnResponse (factories : GoMap (Unit → Middleware H)) (m : Manager H) :
    factories.foldl (fun m kv => m.RegisterOnResponse (kv.2 ())) m =
      { m with
        onResponseMiddlewares :=
          factories.foldl (fun acc kv => acc.set (kv.2 ()).Name (kv.2 ()))
            m.onResponseMiddlewares } := by
  induction factories generalizing m with
  | nil => rfl
  | cons e rest ih => rw [List.foldl_cons, ih]; rfl

/-- The method `LoadFromRegistry` map by map. -/
theorem LoadFromRegistry_eq (m : Manager H) (globalRegistry : Registry H) :
    m.LoadFromRegistry globalRegistry =
      { onRequestMiddlewares :=
          globalRegistry.onRequest.foldl (fun acc kv => acc.set (kv.2 ()).Name (kv.2 ()))
            m.onRequestMiddlewares,
        onResponseMiddlewares :=
          globalRegistry.onResponse.foldl (fun acc kv => acc.set (kv.2 ()).Name (kv.2 ()))
            m.onResponseMiddlewares,
        executionOrder := m.executionOrder } := by
  unfold Manager.LoadFromRegistry
  rw [foldl_RegisterOnRequest, foldl_RegisterOnResponse]

/-- C12, amended: take a registry in which every constructor builds an instance
that reports the name the constructor is registered under (the names of a
phase being distinct, as the keys of a Go map are).  After `LoadFromRegistry`
on a fresh manager, each phase of the manager holds one entry per registered
name, namely the instance its constructor built, and nothing else; so a name
reads as its instance exactly when it is registered in that phase,
`GetMiddlewares [n]` has length 1 for every name `n` registered in either
phase, and each phase holds as many instances as it has registered names. -/
theorem loadFromRegistry_one_instance_per_agreeing_name (globalRegistry : Registry H)
    (hreq : namesAgree globalRegistry.onRequest)
    (hresp : namesAgree globalRegistry.onResponse)
    (hreqKeys : (globalRegistry.onRequest.map fun kv => kv.1).Nodup)
    (hrespKeys : (globalRegistry.onResponse.map fun kv => kv.1).Nodup) :
    ((NewManager H).LoadFromRegistry globalRegistry).onRequestMiddlewares =
        (globalRegistry.onRequest.map fun kv => (kv.1, kv.2 ())) ∧
      ((NewManager H).LoadFromRegistry globalRegistry).onResponseMiddlewares =
        (globalRegistry.onResponse.map fun kv => (kv.1, kv.2 ())) ∧
      (∀ n, ((NewManager H).LoadFromRegistry globalRegistry).onRequestMiddlewares.get n =
        (globalRegistry.onRequest.get n).map fun factory => factory ()) ∧
      (∀ n, ((NewManager H).LoadFromRegistry globalRegistry).onResponseMiddlewares.get n =
        (globalRegistry.onResponse.get n).map fun factory => factory ()) ∧
      (∀ n, (globalRegistry.onRequest.get n).isSome = true ∨
          (globalRegistry.onResponse.get n).isSome = true →
        (((NewManager H).LoadFromRegistry globalRegistry).GetMiddlewares [n]).length = 1) ∧
      ((NewManager H).LoadFromRegistry globalRegistry).onRequestMiddlewares.length =
        globalRegistry.onRequest.length ∧
      ((NewManager H).LoadFromRegistry globalRegistry).onResponseMiddlewares.length =
        globalRegistry.onResponse.length := by
  have h1 : ((NewManager H).LoadFromRegistry globalRegistry).onRequestMiddlewares =
      (globalRegistry.onRequest.map fun kv => (kv.1, kv.2 ())) := by
    rw [LoadFromRegistry_eq]
    simp only [NewManager]
    rw [register_fold_fresh _ [] hreq hreqKeys (fun _ _ => rfl)]
    simp
  have h2 : ((NewManager H).LoadFromRegistry globalRegistry).onResponseMiddlewares =
      (globalRegistry.onResponse.map fun kv => (kv.1, kv.2 ())) := by
    rw [LoadFromRegistry_eq]
    simp only [NewManager]
    rw [register_fold_fresh _ [] hresp hrespKeys (fun _ _ => rfl)]
    simp
  have g1 : ∀ n, ((NewManager H).LoadFromRegistry globalRegistry).onRequestMiddlewares.get n =
      (globalRegistry.onRequest.get n).map fun factory => factory () := by
    intro n
    rw [h1]
    exact GoMap.get_map _ (fun factory : Unit → Middleware H => factory ()) n
  have g2 : ∀ n, ((NewManager H).LoadFromRegistry globalRegistry).onResponseMiddlewares.get n =
      (globalRegistry.onResponse.get n).map fun factory => factory () := by
    intro n
    rw [h2]
    exact GoMap.get_map _ (fun factory : Unit → Middleware H => factory ()) n
  refine ⟨h1, h2, g1, g2, ?_, ?_, ?_⟩
  · intro n hn
    rw [GetMiddlewares_length]
    have hregd : ((NewManager H).LoadFromRegistry globalRegistry).registered n = true := by
      unfold Manager.registered
      rw [g1, g2]
      rcases hn with hn | hn
      · simp [Option.isSome_map', hn]
      · simp [Option.isSome_map', hn]
    simp [List.filter_cons, hregd]
  · rw [h1, List.length_map]
  · rw [h2, List.length_map]

/-- C12 as stated fails: a constructor registered as `cors` whose instance
calls itself `CORS`.  The registered name has no instance, `GetMiddlewares`
resolves it to nothing, and the manager holds an instance under a name that is
not registered. -/
theorem loadFromRegistry_renaming_counterexample :
    (renamingRegistry.onRequest.get "cors").isSome = true ∧
      (((NewManager (List String)).LoadFromRegistry renamingRegistry).onRequestMiddlewares.get
        "cors").isSome = false ∧
      (((NewManager (List String)).LoadFromRegistry renamingRegistry).GetMiddlewares
        ["cors"]).length = 0 ∧
      (renamingRegistry.onRequest.get "CORS").isSome = false ∧
      (((NewManager (List String)).LoadFromRegistry renamingRegistry).onRequestMiddlewares.get
        "CORS").isSome = true := by
  decide

/-- C12, amended, at a concrete input: the registry as the repository's three
middlewares fill it. -/
theorem loadFromRegistry_one_instance_per_agreeing_name_witness :
    ((NewManager (List String)).LoadFromRegistry sampleRegistry).onRequestMiddlewares.length =
        sampleRegistry.onRequest.length ∧
      (((NewManager (List String)).LoadFromRegistry sampleRegistry).GetMiddlewares
        ["timer"]).length = 1 ∧
      ((NewManager (List String)).LoadFromRegistry sampleRegistry).onRequestMiddlewares.map
          (fun kv => kv.1) = ["logger", "cors"] :=
  have h := loadFromRegistry_one_instance_per_agreeing_name sampleRegistry
    (by
      intro kv hkv
      simp only [sampleRegistry, List.mem_cons, List.mem_singleton, List.not_mem_nil,
        or_false] at hkv
      rcases hkv with rfl | rfl <;> rfl)
    (by
      intro kv hkv
      simp only [sampleRegistry, List.mem_singleton] at hkv
      subst hkv
      rfl)
    (by decide) (by decide)
  ⟨h.2.2.2.2.2.1, h.2.2.2.2.1 "timer" (Or.inr (by decide)), by decide⟩

end Registry

/-! ## The global chain -/

section GlobalChain

variable {H : Type}

/-- Resolving a name list against one phase only. -/
theorem phase_foldl (phase : GoMap (Middleware H)) (names : List String)
    (acc : List (H → H)) :
    names.foldl
        (fun middlewares name =>
          match phase.get name with
          | some mw => middlewares ++ [mw.Handle]
          | none => middlewares)
        acc =
      acc ++ names.filterMap fun name => (phase.get name).map fun mw => mw.Handle := by
  induction names generalizing acc with
  | nil => simp
  | cons name rest ih =>
    rw [List.foldl_cons, ih]
    cases h : phase.get name <;> simp [List.filterMap_cons, h]

theorem GetGlobalMiddlewares_eq (m : Manager H) :
    m.GetGlobalMiddlewares =
      (m.executionOrder.OnRequest.filterMap fun name =>
          (m.onRequestMiddlewares.get name).map fun mw => mw.Handle) ++
        m.executionOrder.OnResponse.filterMap fun name =>
          (m.onResponseMiddlewares.get name).map fun mw => mw.Handle := by
  unfold Manager.GetGlobalMiddlewares
  simp only [phase_foldl, List.nil_append]

/-- C13, amended: `GetGlobalMiddlewares` resolves the pre-request names against
the pre-request instances only and then the post-response names against the
post-response instances only.  It is the chain of the specification,
`GetMiddlewares order.OnRequest ++ GetMiddlewares order.OnResponse`, whenever
no pre-request name has an instance in the post-response phase alone and no
post-response name has a pre-request instance. -/
theorem getGlobalMiddlewares_resolves_per_phase (m : Manager H) :
    (m.GetGlobalMiddlewares =
        (m.executionOrder.OnRequest.filterMap fun name =>
            (m.onRequestMiddlewares.get name).map fun mw => mw.Handle) ++
          m.executionOrder.OnResponse.filterMap fun name =>
            (m.onResponseMiddlewares.get name).map fun mw => mw.Handle) ∧
      ((∀ name ∈ m.executionOrder.OnRequest,
          m.onRequestMiddlewares.get name = none → m.onResponseMiddlewares.get name = none) →
        (∀ name ∈ m.executionOrder.OnResponse, m.onRequestMiddlewares.get name = none) →
        m.GetGlobalMiddlewares = m.globalChainSpec) := by
  refine ⟨GetGlobalMiddlewares_eq m, ?_⟩
  intro hreq hresp
  rw [GetGlobalMiddlewares_eq, Manager.globalChainSpec, GetMiddlewares_eq, GetMiddlewares_eq]
  congr 1
  · apply List.filterMap_congr
    intro name hname
    cases h1 : m.onRequestMiddlewares.get name with
    | some mw => rfl
    | none => simp [hreq name hname h1]
  · apply List.filterMap_congr
    intro name hname
    rw [hresp name hname]
    cases h2 : m.onResponseMiddlewares.get name <;> rfl

/-- C13 as stated fails: with `timer` registered in the post-response phase
only and listed under the pre-request phase of the execution order,
`GetGlobalMiddlewares` is empty while the chain of the specification holds
`timer`. -/
theorem getGlobalMiddlewares_cross_phase_counterexample :
    crossPhaseManager.GetGlobalMiddlewares.length = 0 ∧
      (crossPhaseManager.GetMiddlewares crossPhaseManager.executionOrder.OnRequest ++
        crossPhaseManager.GetMiddlewares crossPhaseManager.executionOrder.OnResponse).length =
        1 ∧
      crossPhaseManager.GetGlobalMiddlewares ≠
        crossPhaseManager.GetMiddlewares crossPhaseManager.executionOrder.OnRequest ++
          crossPhaseManager.GetMiddlewares crossPhaseManager.executionOrder.OnResponse := by
  refine ⟨by decide, by decide, ?_⟩
  intro h
  have hlen := congrArg List.length h
  revert hlen
  decide

/-- C13, amended, at a concrete input: every listed name sits in its own
phase. -/
theorem getGlobalMiddlewares_resolves_per_phase_witness :
    Manager.GetGlobalMiddlewares
        { sampleManager with executionOrder := { OnRequest := ["b", "zz"], OnResponse := ["t"] } } =
      Manager.globalChainSpec
        { sampleManager with executionOrder := { OnRequest := ["b", "zz"], OnResponse := ["t"] } } ∧
      (Manager.GetGlobalMiddlewares
        { sampleManager with
          executionOrder := { OnRequest := ["b", "zz"], OnResponse := ["t"] } }).map
        (fun mw => mw []) = [["b"], ["t"]] :=
  ⟨(getGlobalMiddlewares_resolves_per_phase
      { sampleManager with executionOrder := { OnRequest := ["b", "zz"], OnResponse := ["t"] } }).2
      (by
        intro name hname _
        have hcases : name = "b" ∨ name = "zz" := by simpa using hname
        rcases hcases with rfl | rfl
        · rfl
        · rfl)
      (by
        intro name hname
        have hcases : name = "t" := by simpa using hname
        subst hcases
        rfl),
    by decide⟩

end GlobalChain

end Kaimon
